import Mathlib

/-!
# Fruchterman–Reingold layout in 3D (`fruchterman.hpp`)

A shallow embedding of `fa`, `fr` and `layout_with_fr_3d`.

* `double` is modelled by an arbitrary linear ordered field `α` (exact arithmetic);
  `std::sqrt` is a parameter `sq : α → α`, and the theorems that need it assume
  `0 ≤ sq x` and `sq x * sq x = x` for `0 ≤ x` (both hold for `Real.sqrt`).
* The namespace `Rounded` repeats the program with a rounding after every arithmetic
  operation; with `roundDouble` and `sqrtDouble` on `ℚ` it is the program in IEEE 754
  binary64 arithmetic. Properties that hold in exact arithmetic only are refuted there.
* `std::size_t` is `Nat` with explicit reduction modulo `2 ^ 64`.
* A failed `assert`, an index beyond the end of a `std::vector` and a division whose
  divisor is zero are outcomes `Except.error _` of the model.
* `std::set<std::array<std::size_t, 2>>` is a strictly increasing list of pairs.
* `int n_iter` is an `Int`; the loop counter `i` is a `Nat` below it.
* The attraction loop keeps each index of an edge in a `double` before it indexes `vertex`
  and `disp` with it; the model indexes with the index itself (the same below `2 ^ 53`).
-/

namespace Fruchterman

/-- Ways in which a call can fail to produce a layout. -/
inductive Err where
  /-- `assert(k > 0)` in `fa` -/
  | assertFa
  /-- `assert(x > 0)` in `fr` -/
  | assertFr
  /-- `assert(E.size() == face.size() * 3 / 2)` -/
  | assertEdges
  /-- `assert(vertex.size() - E.size() + face.size() == 2)` -/
  | assertEuler
  /-- `operator[]` of a `std::vector` with an index that is not below its size -/
  | outOfBounds
  /-- a division whose divisor is zero -/
  | divByZero
  deriving DecidableEq

/-- `std::array<double, 3>`. -/
structure Vec3 (α : Type) where
  x : α
  y : α
  z : α

/-- `std::array<std::size_t, 3>`: one triangle. -/
abbrev Face := Nat × Nat × Nat

/-- `std::array<std::size_t, 2>`: one element of `E`. -/
abbrev Edge := Nat × Nat

/-- The modulus of `std::size_t` arithmetic. -/
def SIZE_MOD : Nat := 2 ^ 64

/-- `size()` of a `std::vector` or `std::set`, a `std::size_t`. -/
def size {β : Type} (l : List β) : Nat := l.length % SIZE_MOD

/-- `a - b` on `std::size_t` (wraps around). -/
def sizeSub (a b : Nat) : Nat := (a % SIZE_MOD + (SIZE_MOD - b % SIZE_MOD)) % SIZE_MOD

/-- `a + b` on `std::size_t` (wraps around). -/
def sizeAdd (a b : Nat) : Nat := (a + b) % SIZE_MOD

/-- `a * b` on `std::size_t` (wraps around). -/
def sizeMul (a b : Nat) : Nat := (a * b) % SIZE_MOD

/-- `operator<` of `std::array<std::size_t, 2>`: lexicographic. -/
def edgeLt (a b : Edge) : Prop := a.1 < b.1 ∨ (a.1 = b.1 ∧ a.2 < b.2)

instance edgeLtDecidable (a b : Edge) : Decidable (edgeLt a b) := by
  unfold edgeLt; infer_instance

/-- `std::set::insert`: the element goes to its place in the order, unless an
equivalent one (neither smaller nor larger) is already there. -/
def setInsert (e : Edge) : List Edge → List Edge
  | [] => [e]
  | y :: ys =>
    if edgeLt e y then e :: y :: ys
    else if edgeLt y e then y :: setInsert e ys
    else y :: ys

/-- The three `E.insert` calls made for one face. -/
def insertFace (E : List Edge) (f : Face) : List Edge :=
  setInsert (min f.2.2 f.1, max f.2.2 f.1)
    (setInsert (min f.2.1 f.2.2, max f.2.1 f.2.2)
      (setInsert (min f.1 f.2.1, max f.1 f.2.1) E))

/-- The loop `for (fi = 0; fi < face.size(); ++fi)` that fills `E`. -/
def extractEdges (face : List Face) : List Edge :=
  face.foldl insertFace []

/-- The two `assert`s on `E`, in the order of the source. -/
def checkTopology (nV : Nat) (face : List Face) (E : List Edge) : Except Err Unit :=
  if size E = sizeMul (size face) 3 / 2 then
    if sizeAdd (sizeSub nV (size E)) (size face) = 2 then .ok ()
    else .error .assertEuler
  else .error .assertEdges

section Field

variable {α : Type} [LinearOrderedField α]

instance : Zero (Vec3 α) := ⟨⟨0, 0, 0⟩⟩

/-- A division of the source; the model fails when the divisor is zero. -/
def cdiv (a b : α) : Except Err α :=
  if b = 0 then .error .divByZero else .ok (a / b)

/-- Attractive force `fa`. -/
def fa (x k : α) : Except Err α :=
  if 0 < k then cdiv (x * x) k else .error .assertFa

/-- Repulsive force `fr`. -/
def fr (x k : α) : Except Err α :=
  if 0 < x then cdiv (k * k) x else .error .assertFr

/-- `v[i]` on a `std::vector`. -/
def getV {β : Type} (v : List β) (i : Nat) : Except Err β :=
  match v[i]? with
  | some a => .ok a
  | none => .error .outOfBounds

/-- `disp[i][0] += c.x; disp[i][1] += c.y; disp[i][2] += c.z`. -/
def addAt (disp : List (Vec3 α)) (i : Nat) (c : Vec3 α) : Except Err (List (Vec3 α)) :=
  match disp[i]? with
  | some d => .ok (disp.set i ⟨d.x + c.x, d.y + c.y, d.z + c.z⟩)
  | none => .error .outOfBounds

/-- `disp[i][0] -= c.x; disp[i][1] -= c.y; disp[i][2] -= c.z`. -/
def subAt (disp : List (Vec3 α)) (i : Nat) (c : Vec3 α) : Except Err (List (Vec3 α)) :=
  match disp[i]? with
  | some d => .ok (disp.set i ⟨d.x - c.x, d.y - c.y, d.z - c.z⟩)
  | none => .error .outOfBounds

/-- The body of the inner repulsion loop, for one pair `vi < ui`. -/
def repulsePair (sq : α → α) (vertex : List (Vec3 α)) (k : α) (vi ui : Nat)
    (disp : List (Vec3 α)) : Except Err (List (Vec3 α)) := do
  let pv ← getV vertex vi
  let pu ← getV vertex ui
  let dx := pv.x - pu.x
  let dy := pv.y - pu.y
  let dz := pv.z - pu.z
  let D := sq (dx * dx + dy * dy + dz * dz)
  if D ≠ 0 then
    let qx ← cdiv dx D
    let f ← fr D k
    let qy ← cdiv dy D
    let qz ← cdiv dz D
    let disp1 ← addAt disp vi ⟨qx * f, qy * f, qz * f⟩
    subAt disp1 ui ⟨qx * f, qy * f, qz * f⟩
  else
    pure disp

/-- The repulsion pass: `for vi in [0, n)`, `for ui in [vi + 1, n)`. -/
def repulsion (sq : α → α) (vertex : List (Vec3 α)) (k : α)
    (disp : List (Vec3 α)) : Except Err (List (Vec3 α)) :=
  (List.range vertex.length).foldlM
    (fun d vi => (List.range' (vi + 1) (vertex.length - (vi + 1))).foldlM
      (fun d1 ui => repulsePair sq vertex k vi ui d1) d)
    disp

/-- The body of the attraction loop, for one element of `E`. -/
def attractEdge (sq : α → α) (vertex : List (Vec3 α)) (k : α) (e : Edge)
    (disp : List (Vec3 α)) : Except Err (List (Vec3 α)) := do
  let pv ← getV vertex e.1
  let pu ← getV vertex e.2
  let dx := pv.x - pu.x
  let dy := pv.y - pu.y
  let dz := pv.z - pu.z
  let D := sq (dx * dx + dy * dy + dz * dz)
  if D ≠ 0 then
    let qx ← cdiv dx D
    let f ← fa D k
    let qy ← cdiv dy D
    let qz ← cdiv dz D
    let disp1 ← subAt disp e.1 ⟨qx * f, qy * f, qz * f⟩
    addAt disp1 e.2 ⟨qx * f, qy * f, qz * f⟩
  else
    pure disp

/-- The attraction pass: the elements of `E` in increasing order. -/
def attraction (sq : α → α) (vertex : List (Vec3 α)) (E : List Edge) (k : α)
    (disp : List (Vec3 α)) : Except Err (List (Vec3 α)) :=
  E.foldlM (fun d e => attractEdge sq vertex k e d) disp

/-- The displacement accumulators of one iteration: `disp` is created with all
entries zero, then the repulsion and the attraction pass run on `vertex`. -/
def displacement (sq : α → α) (vertex : List (Vec3 α)) (E : List Edge) (k : α) :
    Except Err (List (Vec3 α)) := do
  let disp ← repulsion sq vertex k (List.replicate vertex.length 0)
  attraction sq vertex E k disp

/-- The move of one vertex: `p` is `ret[vi]`, `d` is `disp[vi]`. -/
def moveVertex (sq : α → α) (temp : α) (p d : Vec3 α) : Except Err (Vec3 α) :=
  let m := sq (d.x ^ 2 + d.y ^ 2 + d.z ^ 2)
  if m ≠ 0 then do
    let qx ← cdiv d.x m
    let qy ← cdiv d.y m
    let qz ← cdiv d.z m
    pure ⟨p.x + qx * min temp |d.x|, p.y + qy * min temp |d.y|, p.z + qz * min temp |d.z|⟩
  else
    pure p

/-- The move pass: `for vi in [0, n)`. -/
def movePass (sq : α → α) (temp : α) (n : Nat) (disp ret : List (Vec3 α)) :
    Except Err (List (Vec3 α)) :=
  (List.range n).foldlM
    (fun r vi => do
      let d ← getV disp vi
      let p ← getV r vi
      let p1 ← moveVertex sq temp p d
      pure (r.set vi p1))
    ret

/-- The body of the loop `for (int i = 0; i < n_iter; ++i)`: the state is `(ret, temp)`. -/
def iteration (sq : α → α) (vertex : List (Vec3 α)) (E : List Edge) (dist_opt temp_start : α)
    (n_iter : Int) (i : Nat) (s : List (Vec3 α) × α) : Except Err (List (Vec3 α) × α) := do
  let disp ← displacement sq vertex E dist_opt
  let ret ← movePass sq s.2 vertex.length disp s.1
  let q ← cdiv ((i : α) * temp_start) (n_iter : α)
  pure (ret, temp_start - q)

/-- The state `(ret, temp)` after the first `j` iterations of the loop. -/
def iterations (sq : α → α) (vertex : List (Vec3 α)) (E : List Edge) (dist_opt temp_start : α)
    (n_iter : Int) : Nat → Except Err (List (Vec3 α) × α)
  | 0 => .ok (vertex, temp_start)
  | j + 1 => do
    let s ← iterations sq vertex E dist_opt temp_start n_iter j
    iteration sq vertex E dist_opt temp_start n_iter j s

/-- The function `layout_with_fr_3d`. The loop runs `n_iter` times, not at all when
`n_iter` is negative. -/
def layout_with_fr_3d (sq : α → α) (vertex : List (Vec3 α)) (face : List Face)
    (dist_opt temp_start : α) (n_iter : Int) : Except Err (List (Vec3 α)) := do
  let E := extractEdges face
  checkTopology vertex.length face E
  let s ← iterations sq vertex E dist_opt temp_start n_iter n_iter.toNat
  pure s.1

/-! ### Notions used to state the properties -/

/-- The sum of the first coordinates of a list of vectors. -/
def sumX (l : List (Vec3 α)) : α := (l.map Vec3.x).sum

/-- The sum of the second coordinates of a list of vectors. -/
def sumY (l : List (Vec3 α)) : α := (l.map Vec3.y).sum

/-- The sum of the third coordinates of a list of vectors. -/
def sumZ (l : List (Vec3 α)) : α := (l.map Vec3.z).sum

/-- The value of `temp` at the start of iteration `j`: `temp_start` for `j = 0`, and for
`j + 1` the value assigned at the end of iteration `j`. -/
def capAt (temp_start : α) (n_iter : Int) : Nat → α
  | 0 => temp_start
  | j + 1 => temp_start - (j : α) * temp_start / (n_iter : α)

/-- The position to which the move pass takes a vertex at `p` whose accumulated
displacement is `d`, under the cap `temp`. -/
def moved (sq : α → α) (temp : α) (p d : Vec3 α) : Vec3 α :=
  if sq (d.x ^ 2 + d.y ^ 2 + d.z ^ 2) = 0 then p
  else
    ⟨p.x + d.x / sq (d.x ^ 2 + d.y ^ 2 + d.z ^ 2) * min temp |d.x|,
     p.y + d.y / sq (d.x ^ 2 + d.y ^ 2 + d.z ^ 2) * min temp |d.y|,
     p.z + d.z / sq (d.x ^ 2 + d.y ^ 2 + d.z ^ 2) * min temp |d.z|⟩

/-- The distance `D` of the source between the positions `pv` and `pu`. -/
def dist (sq : α → α) (pv pu : Vec3 α) : α :=
  sq ((pv.x - pu.x) * (pv.x - pu.x) + (pv.y - pu.y) * (pv.y - pu.y)
    + (pv.z - pu.z) * (pv.z - pu.z))

/-- The vector `(dx / D * F, dy / D * F, dz / D * F)` that the source adds to one
vertex of a pair and subtracts from the other, for a force of magnitude `F`. -/
def contribution (sq : α → α) (pv pu : Vec3 α) (F : α) : Vec3 α :=
  ⟨(pv.x - pu.x) / dist sq pv pu * F, (pv.y - pu.y) / dist sq pv pu * F,
    (pv.z - pu.z) / dist sq pv pu * F⟩

/-- The vector `p` translated by `c`. -/
def shift (c p : Vec3 α) : Vec3 α := ⟨p.x + c.x, p.y + c.y, p.z + c.z⟩

/-- The regular tetrahedron on four corners of the unit cube. -/
def tetraV : List (Vec3 α) := [⟨0, 0, 0⟩, ⟨1, 1, 0⟩, ⟨1, 0, 1⟩, ⟨0, 1, 1⟩]

end Field

/-- The four faces of the tetrahedron. -/
def tetraF : List Face := [(0, 1, 2), (0, 1, 3), (0, 2, 3), (1, 2, 3)]

/-- The input gets past the two topology assertions. -/
def accepted {β : Type} (vertex : List β) (face : List Face) : Prop :=
  (checkTopology vertex.length face (extractEdges face)).isOk = true

instance acceptedDecidable {β : Type} (vertex : List β) (face : List Face) :
    Decidable (accepted vertex face) := by
  unfold accepted; infer_instance

/-- Every index of every face is below `n`. -/
def facesInRange (n : Nat) (face : List Face) : Prop :=
  ∀ f ∈ face, f.1 < n ∧ f.2.1 < n ∧ f.2.2 < n

/-- The face `g` names the three indices of the face `f`, in the same order, rotated,
reversed, or reversed and rotated. -/
def sameTriangle (f g : Face) : Prop :=
  g = f ∨ g = (f.2.1, f.2.2, f.1) ∨ g = (f.2.2, f.1, f.2.1) ∨
    g = (f.2.2, f.2.1, f.1) ∨ g = (f.2.1, f.1, f.2.2) ∨ g = (f.1, f.2.2, f.2.1)

/-- Every index of every element of `E` is below `n`. -/
def edgesInRange (n : Nat) (E : List Edge) : Prop :=
  ∀ e ∈ E, e.1 < n ∧ e.2 < n

/-! ### The same program with rounding

The definitions of `Rounded` repeat the ones above, except that the result of every
arithmetic operation of the source goes through a rounding function `rnd`; with `rnd` the
identity they are the definitions above. `roundDouble` is the rounding of IEEE 754 binary64
(to nearest, ties to even) with an unbounded exponent range, that is, away from overflow
and from subnormal numbers; `sqrtDouble` is the correctly rounded square root. Each
multiplication and addition rounds by itself (no fused multiply-add), and `std::pow(x, 2)`
is the rounded square. -/

/-- The integer nearest to `q`, the even one of the two when `q` is half-way. -/
def roundHalfEven (q : ℚ) : Int :=
  if q - ⌊q⌋ < 1 / 2 then ⌊q⌋
  else if 1 / 2 < q - ⌊q⌋ then ⌊q⌋ + 1
  else if ⌊q⌋ % 2 = 0 then ⌊q⌋ else ⌊q⌋ + 1

/-- The `double` nearest to `q`: with `e = ⌊log₂ |q|⌋`, the multiple of `2 ^ (e - 52)`
nearest to `q`. -/
def roundDouble (q : ℚ) : ℚ :=
  if q = 0 then 0
  else (roundHalfEven (q / 2 ^ (Int.log 2 |q| - 52)) : ℚ) * 2 ^ (Int.log 2 |q| - 52)

/-- `std::sqrt` on a `double` `q > 0`: with `s = 60 + ⌊log₂ (denominator of q)⌋`, the
rounding of `(r + t) / 2 ^ s`, where `r = ⌊√(q * 4 ^ s)⌋` has more than 100 bits and `t` is
`0` when `r * r = q * 4 ^ s` and `1 / 2` otherwise; this is the `double` nearest to `√q`. -/
def sqrtDouble (q : ℚ) : ℚ :=
  if q ≤ 0 then 0
  else
    roundDouble
      (((Nat.sqrt (q.num.toNat * 4 ^ (60 + Nat.log 2 q.den) / q.den) : ℚ) +
          (if Nat.sqrt (q.num.toNat * 4 ^ (60 + Nat.log 2 q.den) / q.den) ^ 2 * q.den
              = q.num.toNat * 4 ^ (60 + Nat.log 2 q.den) then 0 else 1 / 2)) /
        2 ^ (60 + Nat.log 2 q.den))

/-- The `double` nearest to `0.1`, which is `0x3FB999999999999A`. -/
def tenth : ℚ := 3602879701896397 / 36028797018963968

namespace Rounded

section Field

variable {α : Type} [LinearOrderedField α]

/-- A division of the source, rounded. -/
def cdiv (rnd : α → α) (a b : α) : Except Err α :=
  if b = 0 then .error .divByZero else .ok (rnd (a / b))

/-- Attractive force `fa`. -/
def fa (rnd : α → α) (x k : α) : Except Err α :=
  if 0 < k then cdiv rnd (rnd (x * x)) k else .error .assertFa

/-- Repulsive force `fr`. -/
def fr (rnd : α → α) (x k : α) : Except Err α :=
  if 0 < x then cdiv rnd (rnd (k * k)) x else .error .assertFr

/-- `disp[i][0] += c.x; disp[i][1] += c.y; disp[i][2] += c.z`. -/
def addAt (rnd : α → α) (disp : List (Vec3 α)) (i : Nat) (c : Vec3 α) :
    Except Err (List (Vec3 α)) :=
  match disp[i]? with
  | some d => .ok (disp.set i ⟨rnd (d.x + c.x), rnd (d.y + c.y), rnd (d.z + c.z)⟩)
  | none => .error .outOfBounds

/-- `disp[i][0] -= c.x; disp[i][1] -= c.y; disp[i][2] -= c.z`. -/
def subAt (rnd : α → α) (disp : List (Vec3 α)) (i : Nat) (c : Vec3 α) :
    Except Err (List (Vec3 α)) :=
  match disp[i]? with
  | some d => .ok (disp.set i ⟨rnd (d.x - c.x), rnd (d.y - c.y), rnd (d.z - c.z)⟩)
  | none => .error .outOfBounds

/-- The body of the inner repulsion loop, for one pair `vi < ui`. -/
def repulsePair (rnd sq : α → α) (vertex : List (Vec3 α)) (k : α) (vi ui : Nat)
    (disp : List (Vec3 α)) : Except Err (List (Vec3 α)) := do
  let pv ← getV vertex vi
  let pu ← getV vertex ui
  let dx := rnd (pv.x - pu.x)
  let dy := rnd (pv.y - pu.y)
  let dz := rnd (pv.z - pu.z)
  let D := sq (rnd (rnd (rnd (dx * dx) + rnd (dy * dy)) + rnd (dz * dz)))
  if D ≠ 0 then
    let qx ← cdiv rnd dx D
    let f ← fr rnd D k
    let qy ← cdiv rnd dy D
    let qz ← cdiv rnd dz D
    let disp1 ← addAt rnd disp vi ⟨rnd (qx * f), rnd (qy * f), rnd (qz * f)⟩
    subAt rnd disp1 ui ⟨rnd (qx * f), rnd (qy * f), rnd (qz * f)⟩
  else
    pure disp

/-- The repulsion pass: `for vi in [0, n)`, `for ui in [vi + 1, n)`. -/
def repulsion (rnd sq : α → α) (vertex : List (Vec3 α)) (k : α)
    (disp : List (Vec3 α)) : Except Err (List (Vec3 α)) :=
  (List.range vertex.length).foldlM
    (fun d vi => (List.range' (vi + 1) (vertex.length - (vi + 1))).foldlM
      (fun d1 ui => repulsePair rnd sq vertex k vi ui d1) d)
    disp

/-- The body of the attraction loop, for one element of `E`. -/
def attractEdge (rnd sq : α → α) (vertex : List (Vec3 α)) (k : α) (e : Edge)
    (disp : List (Vec3 α)) : Except Err (List (Vec3 α)) := do
  let pv ← getV vertex e.1
  let pu ← getV vertex e.2
  let dx := rnd (pv.x - pu.x)
  let dy := rnd (pv.y - pu.y)
  let dz := rnd (pv.z - pu.z)
  let D := sq (rnd (rnd (rnd (dx * dx) + rnd (dy * dy)) + rnd (dz * dz)))
  if D ≠ 0 then
    let qx ← cdiv rnd dx D
    let f ← fa rnd D k
    let qy ← cdiv rnd dy D
    let qz ← cdiv rnd dz D
    let disp1 ← subAt rnd disp e.1 ⟨rnd (qx * f), rnd (qy * f), rnd (qz * f)⟩
    addAt rnd disp1 e.2 ⟨rnd (qx * f), rnd (qy * f), rnd (qz * f)⟩
  else
    pure disp

/-- The attraction pass: the elements of `E` in increasing order. -/
def attraction (rnd sq : α → α) (vertex : List (Vec3 α)) (E : List Edge) (k : α)
    (disp : List (Vec3 α)) : Except Err (List (Vec3 α)) :=
  E.foldlM (fun d e => attractEdge rnd sq vertex k e d) disp

/-- The displacement accumulators of one iteration. -/
def displacement (rnd sq : α → α) (vertex : List (Vec3 α)) (E : List Edge) (k : α) :
    Except Err (List (Vec3 α)) := do
  let disp ← repulsion rnd sq vertex k (List.replicate vertex.length 0)
  attraction rnd sq vertex E k disp

/-- The move of one vertex: `p` is `ret[vi]`, `d` is `disp[vi]`. -/
def moveVertex (rnd sq : α → α) (temp : α) (p d : Vec3 α) : Except Err (Vec3 α) :=
  let m := sq (rnd (rnd (rnd (d.x ^ 2) + rnd (d.y ^ 2)) + rnd (d.z ^ 2)))
  if m ≠ 0 then do
    let qx ← cdiv rnd d.x m
    let qy ← cdiv rnd d.y m
    let qz ← cdiv rnd d.z m
    pure ⟨rnd (p.x + rnd (qx * min temp |d.x|)), rnd (p.y + rnd (qy * min temp |d.y|)),
      rnd (p.z + rnd (qz * min temp |d.z|))⟩
  else
    pure p

/-- The move pass: `for vi in [0, n)`. -/
def movePass (rnd sq : α → α) (temp : α) (n : Nat) (disp ret : List (Vec3 α)) :
    Except Err (List (Vec3 α)) :=
  (List.range n).foldlM
    (fun r vi => do
      let d ← getV disp vi
      let p ← getV r vi
      let p1 ← moveVertex rnd sq temp p d
      pure (r.set vi p1))
    ret

/-- The body of the loop `for (int i = 0; i < n_iter; ++i)`: the state is `(ret, temp)`. -/
def iteration (rnd sq : α → α) (vertex : List (Vec3 α)) (E : List Edge)
    (dist_opt temp_start : α) (n_iter : Int) (i : Nat) (s : List (Vec3 α) × α) :
    Except Err (List (Vec3 α) × α) := do
  let disp ← displacement rnd sq vertex E dist_opt
  let ret ← movePass rnd sq s.2 vertex.length disp s.1
  let q ← cdiv rnd (rnd ((i : α) * temp_start)) (n_iter : α)
  pure (ret, rnd (temp_start - q))

/-- The state `(ret, temp)` after the first `j` iterations of the loop. -/
def iterations (rnd sq : α → α) (vertex : List (Vec3 α)) (E : List Edge)
    (dist_opt temp_start : α) (n_iter : Int) : Nat → Except Err (List (Vec3 α) × α)
  | 0 => .ok (vertex, temp_start)
  | j + 1 => do
    let s ← iterations rnd sq vertex E dist_opt temp_start n_iter j
    iteration rnd sq vertex E dist_opt temp_start n_iter j s

/-- The function `layout_with_fr_3d`, every operation rounded by `rnd`. -/
def layout_with_fr_3d (rnd sq : α → α) (vertex : List (Vec3 α)) (face : List Face)
    (dist_opt temp_start : α) (n_iter : Int) : Except Err (List (Vec3 α)) := do
  let E := extractEdges face
  checkTopology vertex.length face E
  let s ← iterations rnd sq vertex E dist_opt temp_start n_iter n_iter.toNat
  pure s.1

end Field

end Rounded

/-! ## The edge set -/

theorem edgeLt_irrefl (a : Edge) : ¬ edgeLt a a := by
  unfold edgeLt; omega

theorem edgeLt_trans {a b c : Edge} (h1 : edgeLt a b) (h2 : edgeLt b c) : edgeLt a c := by
  unfold edgeLt at *; omega

theorem eq_of_not_edgeLt {a b : Edge} (h1 : ¬ edgeLt a b) (h2 : ¬ edgeLt b a) : a = b := by
  unfold edgeLt at *
  obtain ⟨a1, a2⟩ := a
  obtain ⟨b1, b2⟩ := b
  simp only [Prod.mk.injEq] at *
  omega

theorem mem_setInsert (e x : Edge) (l : List Edge) :
    x ∈ setInsert e l ↔ x = e ∨ x ∈ l := by
  induction l with
  | nil => simp [setInsert]
  | cons y ys ih =>
    unfold setInsert
    split_ifs with h1 h2
    · simp
    · simp only [List.mem_cons, ih]; tauto
    · have hey : e = y := eq_of_not_edgeLt h1 h2
      subst hey
      simp

theorem pairwise_setInsert (e : Edge) (l : List Edge) (hl : l.Pairwise edgeLt) :
    (setInsert e l).Pairwise edgeLt := by
  induction l with
  | nil => simp [setInsert]
  | cons y ys ih =>
    rw [List.pairwise_cons] at hl
    unfold setInsert
    split_ifs with h1 h2
    · refine List.Pairwise.cons ?_ (List.Pairwise.cons hl.1 hl.2)
      intro z hz
      rcases List.mem_cons.1 hz with rfl | hz
      · exact h1
      · exact edgeLt_trans h1 (hl.1 z hz)
    · refine List.Pairwise.cons ?_ (ih hl.2)
      intro z hz
      rcases (mem_setInsert e z ys).1 hz with rfl | hz
      · exact h2
      · exact hl.1 z hz
    · exact List.Pairwise.cons hl.1 hl.2

theorem pairwise_insertFace (E : List Edge) (f : Face) (hE : E.Pairwise edgeLt) :
    (insertFace E f).Pairwise edgeLt :=
  pairwise_setInsert _ _ (pairwise_setInsert _ _ (pairwise_setInsert _ _ hE))

theorem mem_insertFace (E : List Edge) (f : Face) (x : Edge) :
    x ∈ insertFace E f ↔
      x = (min f.1 f.2.1, max f.1 f.2.1) ∨ x = (min f.2.1 f.2.2, max f.2.1 f.2.2) ∨
        x = (min f.2.2 f.1, max f.2.2 f.1) ∨ x ∈ E := by
  unfold insertFace
  simp only [mem_setInsert]
  tauto

theorem pairwise_foldl_insertFace (face : List Face) (E : List Edge) (hE : E.Pairwise edgeLt) :
    (face.foldl insertFace E).Pairwise edgeLt := by
  induction face generalizing E with
  | nil => simpa using hE
  | cons f fs ih => exact ih _ (pairwise_insertFace E f hE)

theorem mem_foldl_insertFace (face : List Face) (E : List Edge) (x : Edge) :
    x ∈ face.foldl insertFace E ↔
      x ∈ E ∨ ∃ f ∈ face, x = (min f.1 f.2.1, max f.1 f.2.1) ∨
        x = (min f.2.1 f.2.2, max f.2.1 f.2.2) ∨ x = (min f.2.2 f.1, max f.2.2 f.1) := by
  induction face generalizing E with
  | nil => simp
  | cons f fs ih =>
    rw [List.foldl_cons, ih, mem_insertFace]
    constructor
    · rintro (h | ⟨g, hg, h⟩)
      · rcases h with h | h | h | h
        · exact Or.inr ⟨f, List.mem_cons_self _ _, Or.inl h⟩
        · exact Or.inr ⟨f, List.mem_cons_self _ _, Or.inr (Or.inl h)⟩
        · exact Or.inr ⟨f, List.mem_cons_self _ _, Or.inr (Or.inr h)⟩
        · exact Or.inl h
      · exact Or.inr ⟨g, List.mem_cons_of_mem _ hg, h⟩
    · rintro (h | ⟨g, hg, h⟩)
      · exact Or.inl (Or.inr (Or.inr (Or.inr h)))
      · rcases List.mem_cons.1 hg with rfl | hg
        · rcases h with h | h | h
          · exact Or.inl (Or.inl h)
          · exact Or.inl (Or.inr (Or.inl h))
          · exact Or.inl (Or.inr (Or.inr (Or.inl h)))
        · exact Or.inr ⟨g, hg, h⟩

theorem pairwise_extractEdges (face : List Face) : (extractEdges face).Pairwise edgeLt :=
  pairwise_foldl_insertFace face [] List.Pairwise.nil

theorem mem_extractEdges (face : List Face) (x : Edge) :
    x ∈ extractEdges face ↔
      ∃ f ∈ face, x = (min f.1 f.2.1, max f.1 f.2.1) ∨
        x = (min f.2.1 f.2.2, max f.2.1 f.2.2) ∨ x = (min f.2.2 f.1, max f.2.2 f.1) := by
  unfold extractEdges
  simp [mem_foldl_insertFace]

theorem nodup_extractEdges (face : List Face) : (extractEdges face).Nodup := by
  have h := pairwise_extractEdges face
  unfold List.Nodup
  refine h.imp ?_
  intro a b hab heq
  subst heq
  exact edgeLt_irrefl a hab

theorem pair_eq_min_max (p q a b : Nat) :
    (p, q) = (min a b, max a b) ↔ p ≤ q ∧ ((p = a ∧ q = b) ∨ (p = b ∧ q = a)) := by
  simp only [Prod.mk.injEq]
  omega

/-- C8: a pair `(p, q)` is in the edge set built from the faces exactly when `p ≤ q` and
some face `(a, b, c)` has `{p, q}` equal to `{a, b}`, `{b, c}` or `{c, a}`; the edge set
has no pair twice. -/
theorem extractEdges_spec (face : List Face) :
    (∀ p q : Nat, (p, q) ∈ extractEdges face ↔
      p ≤ q ∧ ∃ f ∈ face,
        ((p = f.1 ∧ q = f.2.1) ∨ (p = f.2.1 ∧ q = f.1)) ∨
        ((p = f.2.1 ∧ q = f.2.2) ∨ (p = f.2.2 ∧ q = f.2.1)) ∨
        ((p = f.2.2 ∧ q = f.1) ∨ (p = f.1 ∧ q = f.2.2))) ∧
    (extractEdges face).Nodup := by
  constructor
  · intro p q
    rw [mem_extractEdges]
    simp only [pair_eq_min_max]
    constructor
    · rintro ⟨f, hf, h⟩
      refine ⟨by tauto, f, hf, by tauto⟩
    · rintro ⟨hpq, f, hf, h⟩
      exact ⟨f, hf, by tauto⟩
  · exact nodup_extractEdges face

/-! ## The topology assertions -/

theorem length_setInsert_le (e : Edge) (l : List Edge) :
    (setInsert e l).length ≤ l.length + 1 := by
  induction l with
  | nil => simp [setInsert]
  | cons y ys ih =>
    unfold setInsert
    split_ifs <;> simp only [List.length_cons] <;> omega

theorem length_insertFace_le (E : List Edge) (f : Face) :
    (insertFace E f).length ≤ E.length + 3 := by
  unfold insertFace
  have h1 := length_setInsert_le (min f.1 f.2.1, max f.1 f.2.1) E
  have h2 := length_setInsert_le (min f.2.1 f.2.2, max f.2.1 f.2.2)
    (setInsert (min f.1 f.2.1, max f.1 f.2.1) E)
  have h3 := length_setInsert_le (min f.2.2 f.1, max f.2.2 f.1)
    (setInsert (min f.2.1 f.2.2, max f.2.1 f.2.2) (setInsert (min f.1 f.2.1, max f.1 f.2.1) E))
  omega

theorem length_foldl_insertFace_le (face : List Face) (E : List Edge) :
    (face.foldl insertFace E).length ≤ E.length + 3 * face.length := by
  induction face generalizing E with
  | nil => simp
  | cons f fs ih =>
    have h1 := ih (insertFace E f)
    have h2 := length_insertFace_le E f
    simp only [List.foldl_cons, List.length_cons]
    omega

theorem length_extractEdges_le (face : List Face) :
    (extractEdges face).length ≤ 3 * face.length := by
  have h := length_foldl_insertFace_le face []
  simpa [extractEdges] using h

theorem checkTopology_eq_ok (nV : Nat) (face : List Face) (E : List Edge) :
    checkTopology nV face E = .ok () ↔
      size E = sizeMul (size face) 3 / 2 ∧ sizeAdd (sizeSub nV (size E)) (size face) = 2 := by
  unfold checkTopology
  by_cases h1 : size E = sizeMul (size face) 3 / 2
  · by_cases h2 : sizeAdd (sizeSub nV (size E)) (size face) = 2
    · rw [if_pos h1, if_pos h2]
      exact ⟨fun _ => ⟨h1, h2⟩, fun _ => rfl⟩
    · rw [if_pos h1, if_neg h2]
      exact ⟨fun h => (by cases h), fun h => absurd h.2 h2⟩
  · rw [if_neg h1]
    exact ⟨fun h => (by cases h), fun h => absurd h.1 h1⟩

theorem checkTopology_arith (nV nF nE : Nat) (hV : nV < 2 ^ 62) (hF : nF < 2 ^ 62)
    (hE : nE ≤ 3 * nF) :
    ((nE % SIZE_MOD = sizeMul (nF % SIZE_MOD) 3 / 2) ↔ nE = 3 * nF / 2) ∧
    (sizeAdd (sizeSub nV (nE % SIZE_MOD)) (nF % SIZE_MOD) = 2 ↔ nV + nF = nE + 2) := by
  unfold sizeAdd sizeSub sizeMul SIZE_MOD
  norm_num at hV hF ⊢
  have e1 : nE % 18446744073709551616 = nE := Nat.mod_eq_of_lt (by omega)
  have e2 : nF % 18446744073709551616 = nF := Nat.mod_eq_of_lt (by omega)
  have e3 : nV % 18446744073709551616 = nV := Nat.mod_eq_of_lt (by omega)
  have e4 : nF * 3 % 18446744073709551616 = nF * 3 := Nat.mod_eq_of_lt (by omega)
  simp only [e1, e2, e3, e4]
  constructor <;> omega

theorem accepted_iff {β : Type} (vertex : List β) (face : List Face) :
    accepted vertex face ↔ checkTopology vertex.length face (extractEdges face) = .ok () := by
  unfold accepted
  cases checkTopology vertex.length face (extractEdges face) with
  | error e => simp [Except.isOk, Except.toBool]
  | ok u => simp [Except.isOk, Except.toBool]


/-! ## Failure, loops and accumulators -/

section Lemmas

variable {α : Type} [LinearOrderedField α]

theorem ok_bind {β γ : Type} (a : β) (f : β → Except Err γ) :
    ((Except.ok a : Except Err β) >>= f) = f a := rfl

theorem error_bind {β γ : Type} (e : Err) (f : β → Except Err γ) :
    ((Except.error e : Except Err β) >>= f) = .error e := rfl

theorem bind_eq_ok {β γ : Type} (m : Except Err β) (f : β → Except Err γ) (c : γ) :
    (m >>= f) = .ok c ↔ ∃ a, m = .ok a ∧ f a = .ok c := by
  cases m with
  | error e => simp [error_bind]
  | ok a => simp [ok_bind]

theorem pure_eq_ok {β : Type} (a : β) : (pure a : Except Err β) = .ok a := rfl

theorem foldlM_ok_of_inv {σ β : Type} (P : σ → Prop) (f : σ → β → Except Err σ)
    (l : List β) (s : σ) (hs : P s)
    (hf : ∀ s x, x ∈ l → P s → ∃ s', f s x = .ok s' ∧ P s') :
    ∃ s', l.foldlM f s = .ok s' ∧ P s' := by
  induction l generalizing s with
  | nil => exact ⟨s, rfl, hs⟩
  | cons x xs ih =>
    obtain ⟨s1, h1, hP1⟩ := hf s x (List.mem_cons_self _ _) hs
    obtain ⟨s2, h2, hP2⟩ := ih s1 hP1 (fun s y hy => hf s y (List.mem_cons_of_mem _ hy))
    refine ⟨s2, ?_, hP2⟩
    rw [List.foldlM_cons, h1, ok_bind, h2]

theorem foldlM_inv_of_ok {σ β : Type} (P : σ → Prop) (f : σ → β → Except Err σ)
    (l : List β) (s s' : σ) (hs : P s)
    (hf : ∀ s x s', x ∈ l → P s → f s x = .ok s' → P s')
    (h : l.foldlM f s = .ok s') : P s' := by
  induction l generalizing s with
  | nil =>
    have : s = s' := by simpa [pure_eq_ok] using h
    exact this ▸ hs
  | cons x xs ih =>
    rw [List.foldlM_cons, bind_eq_ok] at h
    obtain ⟨s1, h1, h2⟩ := h
    exact ih s1 (hf s x s1 (List.mem_cons_self _ _) hs h1)
      (fun s y s' hy => hf s y s' (List.mem_cons_of_mem _ hy)) h2

theorem getV_eq_ok {β : Type} (v : List β) (i : Nat) (a : β) :
    getV v i = .ok a ↔ v[i]? = some a := by
  unfold getV
  cases h : v[i]? <;> simp

theorem getV_of_none {β : Type} (v : List β) (i : Nat) (h : v[i]? = none) :
    getV v i = .error .outOfBounds := by
  unfold getV
  rw [h]

theorem addAt_of_some (disp : List (Vec3 α)) (i : Nat) (c d : Vec3 α) (h : disp[i]? = some d) :
    addAt disp i c = .ok (disp.set i ⟨d.x + c.x, d.y + c.y, d.z + c.z⟩) := by
  unfold addAt
  rw [h]

theorem subAt_of_some (disp : List (Vec3 α)) (i : Nat) (c d : Vec3 α) (h : disp[i]? = some d) :
    subAt disp i c = .ok (disp.set i ⟨d.x - c.x, d.y - c.y, d.z - c.z⟩) := by
  unfold subAt
  rw [h]

theorem addAt_eq_ok (disp : List (Vec3 α)) (i : Nat) (c : Vec3 α) (r : List (Vec3 α)) :
    addAt disp i c = .ok r ↔
      ∃ d, disp[i]? = some d ∧ r = disp.set i ⟨d.x + c.x, d.y + c.y, d.z + c.z⟩ := by
  unfold addAt
  cases h : disp[i]? <;> simp [eq_comm]

theorem subAt_eq_ok (disp : List (Vec3 α)) (i : Nat) (c : Vec3 α) (r : List (Vec3 α)) :
    subAt disp i c = .ok r ↔
      ∃ d, disp[i]? = some d ∧ r = disp.set i ⟨d.x - c.x, d.y - c.y, d.z - c.z⟩ := by
  unfold subAt
  cases h : disp[i]? <;> simp [eq_comm]

theorem sum_map_set {β : Type} (f : β → α) (l : List β) (i : Nat) (d d' : β)
    (h : l[i]? = some d) :
    ((l.set i d').map f).sum = (l.map f).sum - f d + f d' := by
  induction l generalizing i with
  | nil => simp at h
  | cons a as ih =>
    cases i with
    | zero =>
      simp only [List.getElem?_cons_zero, Option.some.injEq] at h
      subst h
      simp only [List.set_cons_zero, List.map_cons, List.sum_cons]
      ring
    | succ j =>
      simp only [List.getElem?_cons_succ] at h
      simp only [List.set_cons_succ, List.map_cons, List.sum_cons, ih j h]
      ring

theorem layout_of_check_error (sq : α → α) (vertex : List (Vec3 α)) (face : List Face)
    (k t : α) (n : Int) (e : Err)
    (h : checkTopology vertex.length face (extractEdges face) = .error e) :
    layout_with_fr_3d sq vertex face k t n = .error e := by
  unfold layout_with_fr_3d
  simp only [h, error_bind]

theorem layout_of_accepted (sq : α → α) (vertex : List (Vec3 α)) (face : List Face)
    (k t : α) (n : Int) (h : accepted vertex face) :
    layout_with_fr_3d sq vertex face k t n =
      (iterations sq vertex (extractEdges face) k t n n.toNat >>= fun s => pure s.1) := by
  rw [accepted_iff] at h
  unfold layout_with_fr_3d
  simp only [h, ok_bind]

theorem layout_zero (sq : α → α) (vertex : List (Vec3 α)) (face : List Face)
    (k t : α) (n : Int) (hn : n ≤ 0) (h : accepted vertex face) :
    layout_with_fr_3d sq vertex face k t n = .ok vertex := by
  rw [layout_of_accepted sq vertex face k t n h]
  have : n.toNat = 0 := by omega
  rw [this]
  rfl

theorem cdiv_of_ne (a b : α) (h : b ≠ 0) : cdiv a b = .ok (a / b) := by
  unfold cdiv
  rw [if_neg h]

theorem length_of_addAt (disp r : List (Vec3 α)) (i : Nat) (c : Vec3 α)
    (h : addAt disp i c = .ok r) : r.length = disp.length := by
  obtain ⟨d, -, rfl⟩ := (addAt_eq_ok disp i c r).1 h
  simp

theorem length_of_subAt (disp r : List (Vec3 α)) (i : Nat) (c : Vec3 α)
    (h : subAt disp i c = .ok r) : r.length = disp.length := by
  obtain ⟨d, -, rfl⟩ := (subAt_eq_ok disp i c r).1 h
  simp

theorem sums_of_addAt (disp r : List (Vec3 α)) (i : Nat) (c : Vec3 α)
    (h : addAt disp i c = .ok r) :
    sumX r = sumX disp + c.x ∧ sumY r = sumY disp + c.y ∧ sumZ r = sumZ disp + c.z := by
  obtain ⟨d, hd, rfl⟩ := (addAt_eq_ok disp i c r).1 h
  unfold sumX sumY sumZ
  rw [sum_map_set Vec3.x disp i d _ hd, sum_map_set Vec3.y disp i d _ hd,
    sum_map_set Vec3.z disp i d _ hd]
  refine ⟨by ring, by ring, by ring⟩

theorem sums_of_subAt (disp r : List (Vec3 α)) (i : Nat) (c : Vec3 α)
    (h : subAt disp i c = .ok r) :
    sumX r = sumX disp - c.x ∧ sumY r = sumY disp - c.y ∧ sumZ r = sumZ disp - c.z := by
  obtain ⟨d, hd, rfl⟩ := (subAt_eq_ok disp i c r).1 h
  unfold sumX sumY sumZ
  rw [sum_map_set Vec3.x disp i d _ hd, sum_map_set Vec3.y disp i d _ hd,
    sum_map_set Vec3.z disp i d _ hd]
  refine ⟨by ring, by ring, by ring⟩

theorem addAt_of_lt (disp : List (Vec3 α)) (i : Nat) (c : Vec3 α) (h : i < disp.length) :
    ∃ r, addAt disp i c = .ok r := by
  refine ⟨_, addAt_of_some disp i c (disp.get ⟨i, h⟩) ?_⟩
  simp [List.getElem?_eq_getElem h]

theorem subAt_of_lt (disp : List (Vec3 α)) (i : Nat) (c : Vec3 α) (h : i < disp.length) :
    ∃ r, subAt disp i c = .ok r := by
  refine ⟨_, subAt_of_some disp i c (disp.get ⟨i, h⟩) ?_⟩
  simp [List.getElem?_eq_getElem h]

/-- The body of the repulsion loop in terms of `dist` and `contribution`. -/
theorem repulsePair_eq (sq : α → α) (vertex : List (Vec3 α)) (k : α) (vi ui : Nat)
    (disp : List (Vec3 α)) (pv pu : Vec3 α)
    (hv : vertex[vi]? = some pv) (hu : vertex[ui]? = some pu) :
    repulsePair sq vertex k vi ui disp =
      if dist sq pv pu ≠ 0 then
        if 0 < dist sq pv pu then
          addAt disp vi (contribution sq pv pu (k * k / dist sq pv pu)) >>= fun d1 =>
            subAt d1 ui (contribution sq pv pu (k * k / dist sq pv pu))
        else .error .assertFr
      else .ok disp := by
  unfold repulsePair
  rw [(getV_eq_ok vertex vi pv).2 hv, (getV_eq_ok vertex ui pu).2 hu]
  simp only [ok_bind]
  by_cases hD : dist sq pv pu = 0
  · have hD' := hD
    unfold dist at hD'
    simp [hD, hD', pure_eq_ok]
  · have hD' := hD
    unfold dist at hD'
    by_cases hpos : 0 < dist sq pv pu
    · have hpos' := hpos
      unfold dist at hpos'
      simp [hD, hD', hpos, hpos', cdiv, fr, ok_bind, contribution, dist]
    · have hpos' := hpos
      unfold dist at hpos'
      simp [hD, hD', hpos, hpos', cdiv, fr, ok_bind, error_bind]

/-- The body of the attraction loop in terms of `dist` and `contribution`. -/
theorem attractEdge_eq (sq : α → α) (vertex : List (Vec3 α)) (k : α) (e : Edge)
    (disp : List (Vec3 α)) (pv pu : Vec3 α)
    (hv : vertex[e.1]? = some pv) (hu : vertex[e.2]? = some pu) :
    attractEdge sq vertex k e disp =
      if dist sq pv pu ≠ 0 then
        if 0 < k then
          subAt disp e.1 (contribution sq pv pu (dist sq pv pu * dist sq pv pu / k)) >>= fun d1 =>
            addAt d1 e.2 (contribution sq pv pu (dist sq pv pu * dist sq pv pu / k))
        else .error .assertFa
      else .ok disp := by
  unfold attractEdge
  rw [(getV_eq_ok vertex e.1 pv).2 hv, (getV_eq_ok vertex e.2 pu).2 hu]
  simp only [ok_bind]
  by_cases hD : dist sq pv pu = 0
  · have hD' := hD
    unfold dist at hD'
    simp [hD, hD', pure_eq_ok]
  · have hD' := hD
    unfold dist at hD'
    by_cases hpos : 0 < k
    · simp [hD, hD', hpos, hpos.ne', cdiv, fa, ok_bind, contribution, dist]
    · simp [hD, hD', hpos, cdiv, fa, ok_bind, error_bind]

theorem bind_eq_error {β γ : Type} (m : Except Err β) (f : β → Except Err γ) (e : Err) :
    (m >>= f) = .error e ↔ m = .error e ∨ ∃ a, m = .ok a ∧ f a = .error e := by
  cases m with
  | error e' => simp [error_bind]
  | ok a => simp [ok_bind]

theorem foldlM_error_inv {σ β : Type} (Q : Err → Prop) (f : σ → β → Except Err σ)
    (l : List β) (s : σ) (e : Err)
    (hf : ∀ s x e, x ∈ l → f s x = .error e → Q e)
    (h : l.foldlM f s = .error e) : Q e := by
  induction l generalizing s with
  | nil => simp [pure_eq_ok] at h
  | cons x xs ih =>
    rw [List.foldlM_cons, bind_eq_error] at h
    rcases h with h | ⟨s1, -, h2⟩
    · exact hf s x e (List.mem_cons_self _ _) h
    · exact ih s1 (fun s y e hy => hf s y e (List.mem_cons_of_mem _ hy)) h2

theorem foldlM_error_of_mem {σ β : Type} (f : σ → β → Except Err σ)
    (l : List β) (x : β) (hx : x ∈ l) (hf : ∀ s, ∃ e, f s x = .error e) (s : σ) :
    ∃ e, l.foldlM f s = .error e := by
  induction l generalizing s with
  | nil => simp at hx
  | cons y ys ih =>
    rw [List.foldlM_cons]
    cases hy : f s y with
    | error e => exact ⟨e, by rw [error_bind]⟩
    | ok s1 =>
      rw [ok_bind]
      rcases List.mem_cons.1 hx with rfl | hx'
      · obtain ⟨e, he⟩ := hf s
        rw [he] at hy
        cases hy
      · exact ih hx' s1

theorem addSub_inv (disp r : List (Vec3 α)) (i j : Nat) (c : Vec3 α)
    (h : (addAt disp i c >>= fun d1 => subAt d1 j c) = .ok r) :
    r.length = disp.length ∧ sumX r = sumX disp ∧ sumY r = sumY disp ∧ sumZ r = sumZ disp := by
  obtain ⟨d1, h1, h2⟩ := (bind_eq_ok _ _ _).1 h
  have l1 := length_of_addAt disp d1 i c h1
  have l2 := length_of_subAt d1 r j c h2
  obtain ⟨a1, a2, a3⟩ := sums_of_addAt disp d1 i c h1
  obtain ⟨b1, b2, b3⟩ := sums_of_subAt d1 r j c h2
  refine ⟨by omega, ?_, ?_, ?_⟩
  · rw [b1, a1]; ring
  · rw [b2, a2]; ring
  · rw [b3, a3]; ring

theorem subAdd_inv (disp r : List (Vec3 α)) (i j : Nat) (c : Vec3 α)
    (h : (subAt disp i c >>= fun d1 => addAt d1 j c) = .ok r) :
    r.length = disp.length ∧ sumX r = sumX disp ∧ sumY r = sumY disp ∧ sumZ r = sumZ disp := by
  obtain ⟨d1, h1, h2⟩ := (bind_eq_ok _ _ _).1 h
  have l1 := length_of_subAt disp d1 i c h1
  have l2 := length_of_addAt d1 r j c h2
  obtain ⟨a1, a2, a3⟩ := sums_of_subAt disp d1 i c h1
  obtain ⟨b1, b2, b3⟩ := sums_of_addAt d1 r j c h2
  refine ⟨by omega, ?_, ?_, ?_⟩
  · rw [b1, a1]; ring
  · rw [b2, a2]; ring
  · rw [b3, a3]; ring

theorem addSub_ok (disp : List (Vec3 α)) (i j : Nat) (c : Vec3 α)
    (hi : i < disp.length) (hj : j < disp.length) :
    ∃ r, (addAt disp i c >>= fun d1 => subAt d1 j c) = .ok r := by
  obtain ⟨d1, h1⟩ := addAt_of_lt disp i c hi
  have l1 := length_of_addAt disp d1 i c h1
  obtain ⟨r, h2⟩ := subAt_of_lt d1 j c (by omega)
  exact ⟨r, by rw [h1, ok_bind, h2]⟩

theorem subAdd_ok (disp : List (Vec3 α)) (i j : Nat) (c : Vec3 α)
    (hi : i < disp.length) (hj : j < disp.length) :
    ∃ r, (subAt disp i c >>= fun d1 => addAt d1 j c) = .ok r := by
  obtain ⟨d1, h1⟩ := subAt_of_lt disp i c hi
  have l1 := length_of_subAt disp d1 i c h1
  obtain ⟨r, h2⟩ := addAt_of_lt d1 j c (by omega)
  exact ⟨r, by rw [h1, ok_bind, h2]⟩

theorem addAt_error (disp : List (Vec3 α)) (i : Nat) (c : Vec3 α) (e : Err)
    (h : addAt disp i c = .error e) : e = .outOfBounds := by
  unfold addAt at h
  cases hd : disp[i]? with
  | none => rw [hd] at h; cases h; rfl
  | some d => rw [hd] at h; cases h

theorem subAt_error (disp : List (Vec3 α)) (i : Nat) (c : Vec3 α) (e : Err)
    (h : subAt disp i c = .error e) : e = .outOfBounds := by
  unfold subAt at h
  cases hd : disp[i]? with
  | none => rw [hd] at h; cases h; rfl
  | some d => rw [hd] at h; cases h

theorem repulsePair_of_none (sq : α → α) (vertex : List (Vec3 α)) (k : α) (vi ui : Nat)
    (disp : List (Vec3 α)) (h : vertex[vi]? = none ∨ vertex[ui]? = none) :
    repulsePair sq vertex k vi ui disp = .error .outOfBounds := by
  unfold repulsePair
  cases hv : vertex[vi]? with
  | none => rw [getV_of_none vertex vi hv, error_bind]
  | some pv =>
    rw [(getV_eq_ok vertex vi pv).2 hv, ok_bind]
    rcases h with h | h
    · rw [hv] at h; cases h
    · rw [getV_of_none vertex ui h, error_bind]

theorem attractEdge_of_none (sq : α → α) (vertex : List (Vec3 α)) (k : α) (e : Edge)
    (disp : List (Vec3 α)) (h : vertex[e.1]? = none ∨ vertex[e.2]? = none) :
    attractEdge sq vertex k e disp = .error .outOfBounds := by
  unfold attractEdge
  cases hv : vertex[e.1]? with
  | none => rw [getV_of_none vertex e.1 hv, error_bind]
  | some pv =>
    rw [(getV_eq_ok vertex e.1 pv).2 hv, ok_bind]
    rcases h with h | h
    · rw [hv] at h; cases h
    · rw [getV_of_none vertex e.2 h, error_bind]

theorem repulsePair_inv (sq : α → α) (vertex : List (Vec3 α)) (k : α) (vi ui : Nat)
    (disp r : List (Vec3 α)) (h : repulsePair sq vertex k vi ui disp = .ok r) :
    r.length = disp.length ∧ sumX r = sumX disp ∧ sumY r = sumY disp ∧ sumZ r = sumZ disp := by
  cases hv : vertex[vi]? with
  | none => rw [repulsePair_of_none sq vertex k vi ui disp (Or.inl hv)] at h; cases h
  | some pv =>
    cases hu : vertex[ui]? with
    | none => rw [repulsePair_of_none sq vertex k vi ui disp (Or.inr hu)] at h; cases h
    | some pu =>
      rw [repulsePair_eq sq vertex k vi ui disp pv pu hv hu] at h
      split_ifs at h with h1 h2
      · exact addSub_inv disp r vi ui _ h
      · cases h
        exact ⟨rfl, rfl, rfl, rfl⟩

theorem attractEdge_inv (sq : α → α) (vertex : List (Vec3 α)) (k : α) (e : Edge)
    (disp r : List (Vec3 α)) (h : attractEdge sq vertex k e disp = .ok r) :
    r.length = disp.length ∧ sumX r = sumX disp ∧ sumY r = sumY disp ∧ sumZ r = sumZ disp := by
  cases hv : vertex[e.1]? with
  | none => rw [attractEdge_of_none sq vertex k e disp (Or.inl hv)] at h; cases h
  | some pv =>
    cases hu : vertex[e.2]? with
    | none => rw [attractEdge_of_none sq vertex k e disp (Or.inr hu)] at h; cases h
    | some pu =>
      rw [attractEdge_eq sq vertex k e disp pv pu hv hu] at h
      split_ifs at h with h1 h2
      · exact subAdd_inv disp r e.1 e.2 _ h
      · cases h
        exact ⟨rfl, rfl, rfl, rfl⟩

theorem repulsePair_ok (sq : α → α) (hsq : ∀ x, 0 ≤ sq x) (vertex : List (Vec3 α)) (k : α)
    (vi ui : Nat) (disp : List (Vec3 α)) (hl : disp.length = vertex.length)
    (hv : vi < vertex.length) (hu : ui < vertex.length) :
    ∃ r, repulsePair sq vertex k vi ui disp = .ok r := by
  rw [repulsePair_eq sq vertex k vi ui disp _ _ (List.getElem?_eq_getElem hv)
    (List.getElem?_eq_getElem hu)]
  split_ifs with h1 h2
  · exact addSub_ok disp vi ui _ (by omega) (by omega)
  · exact absurd (lt_of_le_of_ne (hsq _) (Ne.symm h1)) h2
  · exact ⟨disp, rfl⟩

theorem attractEdge_ok (sq : α → α) (vertex : List (Vec3 α)) (k : α) (hk : 0 < k)
    (e : Edge) (disp : List (Vec3 α)) (hl : disp.length = vertex.length)
    (hv : e.1 < vertex.length) (hu : e.2 < vertex.length) :
    ∃ r, attractEdge sq vertex k e disp = .ok r := by
  rw [attractEdge_eq sq vertex k e disp _ _ (List.getElem?_eq_getElem hv)
    (List.getElem?_eq_getElem hu)]
  split_ifs with h1
  · exact subAdd_ok disp e.1 e.2 _ (by omega) (by omega)
  · exact ⟨disp, rfl⟩

theorem repulsePair_error (sq : α → α) (hsq : ∀ x, 0 ≤ sq x) (vertex : List (Vec3 α)) (k : α)
    (vi ui : Nat) (disp : List (Vec3 α)) (e : Err)
    (h : repulsePair sq vertex k vi ui disp = .error e) : e = .outOfBounds := by
  cases hv : vertex[vi]? with
  | none => rw [repulsePair_of_none sq vertex k vi ui disp (Or.inl hv)] at h; cases h; rfl
  | some pv =>
    cases hu : vertex[ui]? with
    | none => rw [repulsePair_of_none sq vertex k vi ui disp (Or.inr hu)] at h; cases h; rfl
    | some pu =>
      rw [repulsePair_eq sq vertex k vi ui disp pv pu hv hu] at h
      split_ifs at h with h1 h2
      · rcases (bind_eq_error _ _ _).1 h with h | ⟨d1, -, h⟩
        · exact addAt_error _ _ _ _ h
        · exact subAt_error _ _ _ _ h
      · exact absurd (lt_of_le_of_ne (hsq _) (Ne.symm h1)) h2

theorem attractEdge_error (sq : α → α) (vertex : List (Vec3 α)) (k : α)
    (e : Edge) (disp : List (Vec3 α)) (er : Err)
    (h : attractEdge sq vertex k e disp = .error er) :
    er = .outOfBounds ∨ (er = .assertFa ∧ ¬ 0 < k) := by
  cases hv : vertex[e.1]? with
  | none =>
    rw [attractEdge_of_none sq vertex k e disp (Or.inl hv)] at h; cases h; exact Or.inl rfl
  | some pv =>
    cases hu : vertex[e.2]? with
    | none =>
      rw [attractEdge_of_none sq vertex k e disp (Or.inr hu)] at h; cases h; exact Or.inl rfl
    | some pu =>
      rw [attractEdge_eq sq vertex k e disp pv pu hv hu] at h
      split_ifs at h with h1 h2
      · rcases (bind_eq_error _ _ _).1 h with h | ⟨d1, -, h⟩
        · exact Or.inl (subAt_error _ _ _ _ h)
        · exact Or.inl (addAt_error _ _ _ _ h)
      · cases h; exact Or.inr ⟨rfl, h2⟩

theorem repulsion_inv (sq : α → α) (vertex : List (Vec3 α)) (k : α)
    (disp r : List (Vec3 α)) (h : repulsion sq vertex k disp = .ok r) :
    r.length = disp.length ∧ sumX r = sumX disp ∧ sumY r = sumY disp ∧ sumZ r = sumZ disp := by
  unfold repulsion at h
  refine foldlM_inv_of_ok
    (fun d => d.length = disp.length ∧ sumX d = sumX disp ∧ sumY d = sumY disp ∧
      sumZ d = sumZ disp) _ _ disp r ⟨rfl, rfl, rfl, rfl⟩ ?_ h
  intro s vi s' _ hs hstep
  refine foldlM_inv_of_ok
    (fun d => d.length = disp.length ∧ sumX d = sumX disp ∧ sumY d = sumY disp ∧
      sumZ d = sumZ disp) _ _ s s' hs ?_ hstep
  intro d ui d' _ hd hpair
  obtain ⟨a0, a1, a2, a3⟩ := repulsePair_inv sq vertex k vi ui d d' hpair
  obtain ⟨b0, b1, b2, b3⟩ := hd
  exact ⟨a0.trans b0, a1.trans b1, a2.trans b2, a3.trans b3⟩

theorem repulsion_ok (sq : α → α) (hsq : ∀ x, 0 ≤ sq x) (vertex : List (Vec3 α)) (k : α)
    (disp : List (Vec3 α)) (hl : disp.length = vertex.length) :
    ∃ r, repulsion sq vertex k disp = .ok r := by
  unfold repulsion
  obtain ⟨r, hr, -⟩ := foldlM_ok_of_inv (fun d : List (Vec3 α) => d.length = vertex.length)
    (fun d vi => (List.range' (vi + 1) (vertex.length - (vi + 1))).foldlM
      (fun d1 ui => repulsePair sq vertex k vi ui d1) d) (List.range vertex.length) disp hl
    (by
      intro s vi hvi hs
      refine foldlM_ok_of_inv (fun d : List (Vec3 α) => d.length = vertex.length) _ _ s hs ?_
      intro d ui hui hd
      have hvi' : vi < vertex.length := List.mem_range.1 hvi
      have hui' : ui < vertex.length := by
        have := List.mem_range'_1.1 hui
        omega
      obtain ⟨d', h'⟩ := repulsePair_ok sq hsq vertex k vi ui d hd hvi' hui'
      exact ⟨d', h', (repulsePair_inv sq vertex k vi ui d d' h').1.trans hd⟩)
  exact ⟨r, hr⟩

theorem repulsion_error (sq : α → α) (hsq : ∀ x, 0 ≤ sq x) (vertex : List (Vec3 α)) (k : α)
    (disp : List (Vec3 α)) (e : Err) (h : repulsion sq vertex k disp = .error e) :
    e = .outOfBounds := by
  unfold repulsion at h
  refine foldlM_error_inv (fun e => e = .outOfBounds) _ _ disp e ?_ h
  intro s vi e' _ hstep
  refine foldlM_error_inv (fun e => e = .outOfBounds) _ _ s e' ?_ hstep
  intro d ui e'' _ hpair
  exact repulsePair_error sq hsq vertex k vi ui d e'' hpair

theorem attraction_inv (sq : α → α) (vertex : List (Vec3 α)) (E : List Edge) (k : α)
    (disp r : List (Vec3 α)) (h : attraction sq vertex E k disp = .ok r) :
    r.length = disp.length ∧ sumX r = sumX disp ∧ sumY r = sumY disp ∧ sumZ r = sumZ disp := by
  unfold attraction at h
  refine foldlM_inv_of_ok
    (fun d => d.length = disp.length ∧ sumX d = sumX disp ∧ sumY d = sumY disp ∧
      sumZ d = sumZ disp) _ _ disp r ⟨rfl, rfl, rfl, rfl⟩ ?_ h
  intro d e d' _ hd hedge
  obtain ⟨a0, a1, a2, a3⟩ := attractEdge_inv sq vertex k e d d' hedge
  obtain ⟨b0, b1, b2, b3⟩ := hd
  exact ⟨a0.trans b0, a1.trans b1, a2.trans b2, a3.trans b3⟩

theorem attraction_ok (sq : α → α) (vertex : List (Vec3 α)) (E : List Edge) (k : α)
    (hk : 0 < k) (hE : edgesInRange vertex.length E)
    (disp : List (Vec3 α)) (hl : disp.length = vertex.length) :
    ∃ r, attraction sq vertex E k disp = .ok r := by
  unfold attraction
  obtain ⟨r, hr, -⟩ := foldlM_ok_of_inv (fun d : List (Vec3 α) => d.length = vertex.length)
    (fun d e => attractEdge sq vertex k e d) E disp hl
    (by
      intro d e he hd
      obtain ⟨d', h'⟩ := attractEdge_ok sq vertex k hk e d hd (hE e he).1 (hE e he).2
      exact ⟨d', h', (attractEdge_inv sq vertex k e d d' h').1.trans hd⟩)
  exact ⟨r, hr⟩

theorem attraction_error (sq : α → α) (vertex : List (Vec3 α)) (E : List Edge) (k : α)
    (disp : List (Vec3 α)) (e : Err) (h : attraction sq vertex E k disp = .error e) :
    e = .outOfBounds ∨ (e = .assertFa ∧ ¬ 0 < k) := by
  unfold attraction at h
  refine foldlM_error_inv (fun e => e = .outOfBounds ∨ (e = .assertFa ∧ ¬ 0 < k)) _ _ disp e ?_ h
  intro d x e' _ hedge
  exact attractEdge_error sq vertex k x d e' hedge

theorem sums_replicate_zero (n : Nat) :
    sumX (List.replicate n (0 : Vec3 α)) = 0 ∧ sumY (List.replicate n (0 : Vec3 α)) = 0 ∧
      sumZ (List.replicate n (0 : Vec3 α)) = 0 := by
  unfold sumX sumY sumZ
  induction n with
  | zero => simp
  | succ m ih =>
    simp only [List.replicate_succ, List.map_cons, List.sum_cons, ih.1, ih.2.1, ih.2.2]
    exact ⟨add_zero _, add_zero _, add_zero _⟩

theorem displacement_inv (sq : α → α) (vertex : List (Vec3 α)) (E : List Edge) (k : α)
    (disp : List (Vec3 α)) (h : displacement sq vertex E k = .ok disp) :
    disp.length = vertex.length ∧ sumX disp = 0 ∧ sumY disp = 0 ∧ sumZ disp = 0 := by
  unfold displacement at h
  obtain ⟨d1, h1, h2⟩ := (bind_eq_ok _ _ _).1 h
  obtain ⟨a0, a1, a2, a3⟩ := repulsion_inv sq vertex k _ d1 h1
  obtain ⟨b0, b1, b2, b3⟩ := attraction_inv sq vertex E k d1 disp h2
  obtain ⟨z1, z2, z3⟩ := @sums_replicate_zero α _ vertex.length
  refine ⟨?_, ?_, ?_, ?_⟩
  · rw [b0, a0]; simp
  · rw [b1, a1, z1]
  · rw [b2, a2, z2]
  · rw [b3, a3, z3]

theorem displacement_ok (sq : α → α) (hsq : ∀ x, 0 ≤ sq x) (vertex : List (Vec3 α))
    (E : List Edge) (k : α) (hk : 0 < k) (hE : edgesInRange vertex.length E) :
    ∃ disp, displacement sq vertex E k = .ok disp := by
  unfold displacement
  obtain ⟨d1, h1⟩ := repulsion_ok sq hsq vertex k (List.replicate vertex.length 0) (by simp)
  have l1 := (repulsion_inv sq vertex k _ d1 h1).1
  obtain ⟨d2, h2⟩ := attraction_ok sq vertex E k hk hE d1 (by rw [l1]; simp)
  exact ⟨d2, by rw [h1, ok_bind, h2]⟩

theorem displacement_error (sq : α → α) (hsq : ∀ x, 0 ≤ sq x) (vertex : List (Vec3 α))
    (E : List Edge) (k : α) (e : Err) (h : displacement sq vertex E k = .error e) :
    e = .outOfBounds ∨ (e = .assertFa ∧ ¬ 0 < k) := by
  unfold displacement at h
  rcases (bind_eq_error _ _ _).1 h with h | ⟨d1, -, h⟩
  · exact Or.inl (repulsion_error sq hsq vertex k _ e h)
  · exact attraction_error sq vertex E k d1 e h

theorem edgesInRange_extractEdges (n : Nat) (face : List Face) (h : facesInRange n face) :
    edgesInRange n (extractEdges face) := by
  intro e he
  obtain ⟨f, hf, hcase⟩ := (mem_extractEdges face e).1 he
  obtain ⟨h1, h2, h3⟩ := h f hf
  rcases hcase with rfl | rfl | rfl <;> simp only <;> constructor <;> omega

theorem moveVertex_eq (sq : α → α) (temp : α) (p d : Vec3 α) :
    moveVertex sq temp p d = .ok (moved sq temp p d) := by
  unfold moveVertex moved
  by_cases h : sq (d.x ^ 2 + d.y ^ 2 + d.z ^ 2) = 0
  · simp [h, pure_eq_ok]
  · simp [h, cdiv, ok_bind, pure_eq_ok]

/-- One step of the move loop. -/
theorem moveStep_eq (sq : α → α) (temp : α) (disp r : List (Vec3 α)) (vi : Nat)
    (d p : Vec3 α) (hd : disp[vi]? = some d) (hp : r[vi]? = some p) :
    (do
      let d ← getV disp vi
      let p ← getV r vi
      let p1 ← moveVertex sq temp p d
      pure (r.set vi p1) : Except Err (List (Vec3 α))) = .ok (r.set vi (moved sq temp p d)) := by
  rw [(getV_eq_ok disp vi d).2 hd, ok_bind, (getV_eq_ok r vi p).2 hp, ok_bind, moveVertex_eq,
    ok_bind, pure_eq_ok]

theorem movePass_succ (sq : α → α) (temp : α) (n : Nat) (disp ret : List (Vec3 α)) :
    movePass sq temp (n + 1) disp ret =
      (movePass sq temp n disp ret >>= fun r => do
        let d ← getV disp n
        let p ← getV r n
        let p1 ← moveVertex sq temp p d
        pure (r.set n p1)) := by
  unfold movePass
  rw [List.range_succ, List.foldlM_append]
  simp [List.foldlM_cons, List.foldlM_nil]

theorem movePass_spec (sq : α → α) (temp : α) (n : Nat) (disp ret r : List (Vec3 α))
    (h : movePass sq temp n disp ret = .ok r) :
    r.length = ret.length ∧ (∀ v, n ≤ v → r[v]? = ret[v]?) ∧
      ∀ v, v < n → ∃ p d, ret[v]? = some p ∧ disp[v]? = some d ∧
        r[v]? = some (moved sq temp p d) := by
  induction n generalizing r with
  | zero =>
    have : ret = r := by simpa [movePass, pure_eq_ok] using h
    subst this
    exact ⟨rfl, fun _ _ => rfl, fun v hv => absurd hv (Nat.not_lt_zero v)⟩
  | succ m ih =>
    rw [movePass_succ, bind_eq_ok] at h
    obtain ⟨r1, h1, h2⟩ := h
    obtain ⟨ihl, ihge, ihlt⟩ := ih r1 h1
    obtain ⟨d, hd, h2⟩ := (bind_eq_ok _ _ _).1 h2
    obtain ⟨p, hp, h2⟩ := (bind_eq_ok _ _ _).1 h2
    rw [getV_eq_ok] at hd hp
    rw [moveVertex_eq, ok_bind, pure_eq_ok] at h2
    have hr : r = r1.set m (moved sq temp p d) := by cases h2; rfl
    subst hr
    have hpm : ret[m]? = some p := by rw [← ihge m (le_refl m)]; exact hp
    have hm1 : m < r1.length := by
      by_contra hc
      rw [List.getElem?_eq_none (by omega)] at hp
      cases hp
    refine ⟨by simp [ihl], ?_, ?_⟩
    · intro v hv
      rw [List.getElem?_set_ne (by omega)]
      exact ihge v (by omega)
    · intro v hv
      by_cases hvm : v = m
      · subst hvm
        exact ⟨p, d, hpm, hd, by rw [List.getElem?_set_eq_of_lt _ hm1]⟩
      · obtain ⟨p', d', a1, a2, a3⟩ := ihlt v (by omega)
        exact ⟨p', d', a1, a2, by rw [List.getElem?_set_ne (by omega)]; exact a3⟩

theorem movePass_ok (sq : α → α) (temp : α) (n : Nat) (disp ret : List (Vec3 α))
    (hd : n ≤ disp.length) (hr : n ≤ ret.length) :
    ∃ r, movePass sq temp n disp ret = .ok r := by
  induction n with
  | zero => exact ⟨ret, by simp [movePass, pure_eq_ok]⟩
  | succ m ih =>
    obtain ⟨r1, h1⟩ := ih (by omega) (by omega)
    have hl := (movePass_spec sq temp m disp ret r1 h1).1
    have hm : m < r1.length := by omega
    rw [movePass_succ, h1, ok_bind]
    exact ⟨_, moveStep_eq sq temp disp r1 m _ _ (List.getElem?_eq_getElem (by omega))
      (List.getElem?_eq_getElem hm)⟩

theorem movePass_error (sq : α → α) (temp : α) (n : Nat) (disp ret : List (Vec3 α)) (e : Err)
    (h : movePass sq temp n disp ret = .error e) : e = .outOfBounds := by
  unfold movePass at h
  refine foldlM_error_inv (fun e => e = .outOfBounds) _ _ ret e ?_ h
  intro r vi e' _ hstep
  cases hd : disp[vi]? with
  | none => rw [getV_of_none disp vi hd, error_bind] at hstep; cases hstep; rfl
  | some d =>
    cases hp : r[vi]? with
    | none =>
      rw [(getV_eq_ok disp vi d).2 hd, ok_bind, getV_of_none r vi hp, error_bind] at hstep
      cases hstep; rfl
    | some p => rw [moveStep_eq sq temp disp r vi d p hd hp] at hstep; cases hstep

theorem iteration_eq_ok (sq : α → α) (vertex : List (Vec3 α)) (E : List Edge) (k ts : α)
    (n : Int) (i : Nat) (s s' : List (Vec3 α) × α) :
    iteration sq vertex E k ts n i s = .ok s' ↔
      ∃ disp, displacement sq vertex E k = .ok disp ∧
        ∃ r, movePass sq s.2 vertex.length disp s.1 = .ok r ∧ (n : α) ≠ 0 ∧
          s' = (r, ts - (i : α) * ts / (n : α)) := by
  unfold iteration
  constructor
  · intro h
    obtain ⟨disp, h1, h⟩ := (bind_eq_ok _ _ _).1 h
    obtain ⟨r, h2, h⟩ := (bind_eq_ok _ _ _).1 h
    obtain ⟨q, h3, h⟩ := (bind_eq_ok _ _ _).1 h
    unfold cdiv at h3
    split_ifs at h3 with hn
    cases h3
    rw [pure_eq_ok] at h
    cases h
    exact ⟨disp, h1, r, h2, hn, rfl⟩
  · rintro ⟨disp, h1, r, h2, hn, rfl⟩
    rw [h1, ok_bind, h2, ok_bind, cdiv_of_ne _ _ hn, ok_bind, pure_eq_ok]

theorem iterations_succ_eq_ok (sq : α → α) (vertex : List (Vec3 α)) (E : List Edge) (k ts : α)
    (n : Int) (j : Nat) (s' : List (Vec3 α) × α) :
    iterations sq vertex E k ts n (j + 1) = .ok s' ↔
      ∃ s, iterations sq vertex E k ts n j = .ok s ∧
        iteration sq vertex E k ts n j s = .ok s' := by
  rw [iterations, bind_eq_ok]

theorem iterations_inv (sq : α → α) (vertex : List (Vec3 α)) (E : List Edge) (k ts : α)
    (n : Int) (j : Nat) (s : List (Vec3 α) × α)
    (h : iterations sq vertex E k ts n j = .ok s) :
    s.1.length = vertex.length ∧ s.2 = capAt ts n j := by
  induction j generalizing s with
  | zero =>
    rw [iterations] at h
    cases h
    exact ⟨rfl, rfl⟩
  | succ m ih =>
    obtain ⟨s0, h0, h1⟩ := (iterations_succ_eq_ok sq vertex E k ts n m s).1 h
    obtain ⟨disp, -, r, hr, -, rfl⟩ := (iteration_eq_ok sq vertex E k ts n m s0 s).1 h1
    exact ⟨(movePass_spec sq s0.2 vertex.length disp s0.1 r hr).1.trans (ih s0 h0).1, rfl⟩

theorem iterations_ok (sq : α → α) (hsq : ∀ x, 0 ≤ sq x) (vertex : List (Vec3 α))
    (E : List Edge) (k ts : α) (hk : 0 < k) (hE : edgesInRange vertex.length E)
    (n : Int) (j : Nat) (hj : j = 0 ∨ n ≠ 0) :
    ∃ s, iterations sq vertex E k ts n j = .ok s := by
  induction j with
  | zero => exact ⟨(vertex, ts), rfl⟩
  | succ m ih =>
    have hn : n ≠ 0 := by
      rcases hj with h | h
      · omega
      · exact h
    obtain ⟨s0, h0⟩ := ih (Or.inr hn)
    obtain ⟨disp, hd⟩ := displacement_ok sq hsq vertex E k hk hE
    have hdl := (displacement_inv sq vertex E k disp hd).1
    have hsl := (iterations_inv sq vertex E k ts n m s0 h0).1
    obtain ⟨r, hr⟩ := movePass_ok sq s0.2 vertex.length disp s0.1 (by omega) (by omega)
    exact ⟨_, (iterations_succ_eq_ok sq vertex E k ts n m _).2 ⟨s0, h0,
      (iteration_eq_ok sq vertex E k ts n m s0 _).2
        ⟨disp, hd, r, hr, Int.cast_ne_zero.2 hn, rfl⟩⟩⟩

theorem iteration_error (sq : α → α) (hsq : ∀ x, 0 ≤ sq x) (vertex : List (Vec3 α))
    (E : List Edge) (k ts : α) (n : Int) (hn : n ≠ 0) (i : Nat) (s : List (Vec3 α) × α)
    (e : Err) (h : iteration sq vertex E k ts n i s = .error e) :
    e = .outOfBounds ∨ (e = .assertFa ∧ ¬ 0 < k) := by
  unfold iteration at h
  rcases (bind_eq_error _ _ _).1 h with h | ⟨disp, -, h⟩
  · exact displacement_error sq hsq vertex E k e h
  · rcases (bind_eq_error _ _ _).1 h with h | ⟨r, -, h⟩
    · exact Or.inl (movePass_error sq s.2 vertex.length disp s.1 e h)
    · rw [cdiv_of_ne _ _ (Int.cast_ne_zero.2 hn), ok_bind, pure_eq_ok] at h
      cases h

theorem iterations_error (sq : α → α) (hsq : ∀ x, 0 ≤ sq x) (vertex : List (Vec3 α))
    (E : List Edge) (k ts : α) (n : Int) (j : Nat) (hj : j = 0 ∨ n ≠ 0) (e : Err)
    (h : iterations sq vertex E k ts n j = .error e) :
    e = .outOfBounds ∨ (e = .assertFa ∧ ¬ 0 < k) := by
  induction j with
  | zero => rw [iterations] at h; cases h
  | succ m ih =>
    have hn : n ≠ 0 := by
      rcases hj with h | h
      · omega
      · exact h
    rw [iterations] at h
    rcases (bind_eq_error _ _ _).1 h with h | ⟨s, -, h⟩
    · exact ih (Or.inr hn) h
    · exact iteration_error sq hsq vertex E k ts n hn m s e h

theorem toNat_zero_or_ne (n : Int) : n.toNat = 0 ∨ n ≠ 0 := by omega

theorem layout_eq_ok (sq : α → α) (vertex : List (Vec3 α)) (face : List Face)
    (k ts : α) (n : Int) (h : accepted vertex face) (r : List (Vec3 α)) :
    layout_with_fr_3d sq vertex face k ts n = .ok r ↔
      ∃ t, iterations sq vertex (extractEdges face) k ts n n.toNat = .ok (r, t) := by
  rw [layout_of_accepted sq vertex face k ts n h, bind_eq_ok]
  constructor
  · rintro ⟨s, hs, h2⟩
    rw [pure_eq_ok] at h2
    cases h2
    exact ⟨s.2, hs⟩
  · rintro ⟨t, ht⟩
    exact ⟨(r, t), ht, rfl⟩

theorem layout_ok (sq : α → α) (hsq : ∀ x, 0 ≤ sq x) (vertex : List (Vec3 α))
    (face : List Face) (k ts : α) (n : Int) (hk : 0 < k) (hacc : accepted vertex face)
    (hF : facesInRange vertex.length face) :
    ∃ r, layout_with_fr_3d sq vertex face k ts n = .ok r := by
  obtain ⟨s, hs⟩ := iterations_ok sq hsq vertex (extractEdges face) k ts hk
    (edgesInRange_extractEdges _ face hF) n n.toNat (toNat_zero_or_ne n)
  exact ⟨s.1, (layout_eq_ok sq vertex face k ts n hacc s.1).2 ⟨s.2, hs⟩⟩

theorem layout_error (sq : α → α) (hsq : ∀ x, 0 ≤ sq x) (vertex : List (Vec3 α))
    (face : List Face) (k ts : α) (n : Int) (hacc : accepted vertex face) (e : Err)
    (h : layout_with_fr_3d sq vertex face k ts n = .error e) :
    e = .outOfBounds ∨ (e = .assertFa ∧ ¬ 0 < k) := by
  rw [layout_of_accepted sq vertex face k ts n hacc] at h
  rcases (bind_eq_error _ _ _).1 h with h | ⟨s, -, h⟩
  · exact iterations_error sq hsq vertex _ k ts n n.toNat (toNat_zero_or_ne n) e h
  · rw [pure_eq_ok] at h; cases h

theorem sq_zero_of_axiom (sq : α → α) (hsq : ∀ x, 0 ≤ x → sq x * sq x = x) : sq 0 = 0 := by
  have h := hsq 0 (le_refl 0)
  exact mul_self_eq_zero.1 h

/-- One coordinate of a move: `|a / m * min temp |a|| ≤ temp` when `a ^ 2 ≤ m * m`. -/
theorem axis_step_le (temp a m : α) (ht : 0 ≤ temp) (hm : 0 < m) (ha : a ^ 2 ≤ m * m) :
    |a / m * min temp (|a|)| ≤ temp := by
  have habs : |a| ≤ m := by
    by_contra hc
    push_neg at hc
    have h1 : m * m < |a| * |a| := mul_self_lt_mul_self hm.le hc
    have h2 : |a| * |a| = a ^ 2 := by rw [abs_mul_abs_self]; ring
    linarith
  have hmin0 : 0 ≤ min temp |a| := le_min ht (abs_nonneg a)
  rw [abs_mul, abs_div, abs_of_pos hm, abs_of_nonneg hmin0]
  have hq : |a| / m ≤ 1 := (div_le_one hm).2 habs
  have hq0 : 0 ≤ |a| / m := div_nonneg (abs_nonneg a) hm.le
  calc |a| / m * min temp |a| ≤ 1 * temp :=
        mul_le_mul hq (min_le_left _ _) hmin0 zero_le_one
    _ = temp := one_mul temp

theorem axis_step_sq_le (temp a m : α) (ht : 0 ≤ temp) (hm : 0 < m) :
    (a / m * min temp |a|) ^ 2 ≤ a ^ 2 / (m * m) * temp ^ 2 := by
  have hmin0 : 0 ≤ min temp |a| := le_min ht (abs_nonneg a)
  have h1 : (min temp |a|) ^ 2 ≤ temp ^ 2 := pow_le_pow_left₀ hmin0 (min_le_left _ _) 2
  have h2 : (a / m * min temp |a|) ^ 2 = a ^ 2 / (m * m) * (min temp |a|) ^ 2 := by
    field_simp
    ring
  rw [h2]
  exact mul_le_mul_of_nonneg_left h1 (div_nonneg (sq_nonneg a) (mul_self_nonneg m))

theorem moved_bound (sq : α → α) (hsq0 : ∀ x, 0 ≤ sq x) (hsq : ∀ x, 0 ≤ x → sq x * sq x = x)
    (temp : α) (ht : 0 ≤ temp) (p d : Vec3 α) :
    |(moved sq temp p d).x - p.x| ≤ temp ∧ |(moved sq temp p d).y - p.y| ≤ temp ∧
      |(moved sq temp p d).z - p.z| ≤ temp ∧
      ((moved sq temp p d).x - p.x) ^ 2 + ((moved sq temp p d).y - p.y) ^ 2
        + ((moved sq temp p d).z - p.z) ^ 2 ≤ temp ^ 2 := by
  unfold moved
  by_cases h : sq (d.x ^ 2 + d.y ^ 2 + d.z ^ 2) = 0
  · rw [if_pos h]
    simp only [sub_self, abs_zero]
    refine ⟨ht, ht, ht, ?_⟩
    have : (0 : α) ^ 2 + 0 ^ 2 + 0 ^ 2 = 0 := by norm_num
    rw [this]
    exact sq_nonneg temp
  · rw [if_neg h]
    have hS : 0 ≤ d.x ^ 2 + d.y ^ 2 + d.z ^ 2 := by positivity
    have hmm := hsq _ hS
    have hm : 0 < sq (d.x ^ 2 + d.y ^ 2 + d.z ^ 2) := lt_of_le_of_ne (hsq0 _) (Ne.symm h)
    generalize sq (d.x ^ 2 + d.y ^ 2 + d.z ^ 2) = m at h hmm hm
    simp only [add_sub_cancel_left]
    have hx : d.x ^ 2 ≤ m * m := by rw [hmm]; nlinarith [sq_nonneg d.y, sq_nonneg d.z]
    have hy : d.y ^ 2 ≤ m * m := by rw [hmm]; nlinarith [sq_nonneg d.x, sq_nonneg d.z]
    have hz : d.z ^ 2 ≤ m * m := by rw [hmm]; nlinarith [sq_nonneg d.x, sq_nonneg d.y]
    refine ⟨axis_step_le temp d.x m ht hm hx, axis_step_le temp d.y m ht hm hy,
      axis_step_le temp d.z m ht hm hz, ?_⟩
    have e1 := axis_step_sq_le temp d.x m ht hm
    have e2 := axis_step_sq_le temp d.y m ht hm
    have e3 := axis_step_sq_le temp d.z m ht hm
    have hmm0 : m * m ≠ 0 := mul_ne_zero h h
    have e4 : d.x ^ 2 / (m * m) * temp ^ 2 + d.y ^ 2 / (m * m) * temp ^ 2
        + d.z ^ 2 / (m * m) * temp ^ 2 = temp ^ 2 := by
      have : d.x ^ 2 / (m * m) + d.y ^ 2 / (m * m) + d.z ^ 2 / (m * m) = 1 := by
        rw [← add_div, ← add_div, ← hmm, div_self hmm0]
      calc d.x ^ 2 / (m * m) * temp ^ 2 + d.y ^ 2 / (m * m) * temp ^ 2
            + d.z ^ 2 / (m * m) * temp ^ 2
          = (d.x ^ 2 / (m * m) + d.y ^ 2 / (m * m) + d.z ^ 2 / (m * m)) * temp ^ 2 := by ring
        _ = temp ^ 2 := by rw [this, one_mul]
    linarith

theorem capAt_nonneg (ts : α) (hts : 0 ≤ ts) (n : Int) (j : Nat) (hj : (j : Int) ≤ n) :
    0 ≤ capAt ts n j := by
  cases j with
  | zero => exact hts
  | succ m =>
    unfold capAt
    have hn : (0 : α) < (n : α) := by
      have : (0 : Int) < n := by omega
      exact_mod_cast this
    have hmn : (m : α) ≤ (n : α) := by
      have : ((m : Int)) ≤ n := by omega
      exact_mod_cast this
    have : (m : α) * ts / (n : α) ≤ ts := by
      rw [div_le_iff₀ hn]
      nlinarith
    linarith

theorem zero_x : (0 : Vec3 α).x = 0 := rfl
theorem zero_y : (0 : Vec3 α).y = 0 := rfl
theorem zero_z : (0 : Vec3 α).z = 0 := rfl

theorem sqrt_two_facts (sq : α → α) (hsq0 : ∀ x, 0 ≤ sq x)
    (hsq : ∀ x, 0 ≤ x → sq x * sq x = x) :
    sq 2 * sq 2 = 2 ∧ 1 < sq 2 := by
  have h2 : sq 2 * sq 2 = 2 := hsq 2 (by norm_num)
  refine ⟨h2, ?_⟩
  by_contra hc
  push_neg at hc
  have := hsq0 2
  nlinarith

theorem tetra_edges : extractEdges tetraF = [(0, 1), (0, 2), (0, 3), (1, 2), (1, 3), (2, 3)] := by
  decide

theorem tetra_repulsion (sq : α → α) (h2 : sq 2 * sq 2 = 2) (hpos : 0 < sq 2) :
    repulsion sq (tetraV : List (Vec3 α)) 1 (List.replicate 4 0) =
      .ok [⟨-1, -1, -1⟩, ⟨1, 1, -1⟩, ⟨1, -1, 1⟩, ⟨-1, 1, 1⟩] := by
  have hne : sq 2 ≠ 0 := hpos.ne'
  have e : (List.range 4) = [0,1,2,3] := by decide
  have i1 : (sq 2)⁻¹ * (sq 2)⁻¹ = 1 / 2 := by
    rw [← mul_inv, h2]; norm_num
  have i2 : -1 / sq 2 * (sq 2)⁻¹ = -(1 / 2) := by
    rw [div_eq_mul_inv, mul_assoc, i1]; norm_num
  simp only [repulsion, tetraV, List.length_cons, List.length_nil, e]
  norm_num [List.range', repulsePair, getV, ok_bind, pure_eq_ok, cdiv, fr, addAt, subAt, hne, hpos,
    i1, i2, zero_x, zero_y, zero_z, List.replicate]

theorem tetra_attraction (sq : α → α) (hpos : 0 < sq 2) :
    attraction sq (tetraV : List (Vec3 α)) [(0, 1), (0, 2), (0, 3), (1, 2), (1, 3), (2, 3)] 1
      [⟨-1, -1, -1⟩, ⟨1, 1, -1⟩, ⟨1, -1, 1⟩, ⟨-1, 1, 1⟩] =
      .ok [⟨2 * sq 2 - 1, 2 * sq 2 - 1, 2 * sq 2 - 1⟩,
        ⟨-(2 * sq 2 - 1), -(2 * sq 2 - 1), 2 * sq 2 - 1⟩,
        ⟨-(2 * sq 2 - 1), 2 * sq 2 - 1, -(2 * sq 2 - 1)⟩,
        ⟨2 * sq 2 - 1, -(2 * sq 2 - 1), -(2 * sq 2 - 1)⟩] := by
  have hne : sq 2 ≠ 0 := hpos.ne'
  have i3 : -1 / sq 2 * (sq 2 * sq 2) = -sq 2 := by field_simp
  simp only [attraction, tetraV]
  norm_num [attractEdge, getV, ok_bind, pure_eq_ok, cdiv, fa, addAt, subAt, hne, hpos]
  simp only [i3]
  repeat' constructor
  all_goals ring

theorem tetra_displacement (sq : α → α) (h2 : sq 2 * sq 2 = 2) (hpos : 0 < sq 2) :
    displacement sq (tetraV : List (Vec3 α)) (extractEdges tetraF) 1 =
      .ok [⟨2 * sq 2 - 1, 2 * sq 2 - 1, 2 * sq 2 - 1⟩,
        ⟨-(2 * sq 2 - 1), -(2 * sq 2 - 1), 2 * sq 2 - 1⟩,
        ⟨-(2 * sq 2 - 1), 2 * sq 2 - 1, -(2 * sq 2 - 1)⟩,
        ⟨2 * sq 2 - 1, -(2 * sq 2 - 1), -(2 * sq 2 - 1)⟩] := by
  unfold displacement
  have hl : (tetraV : List (Vec3 α)).length = 4 := rfl
  rw [hl, tetra_repulsion sq h2 hpos, ok_bind, tetra_edges, tetra_attraction sq hpos]

theorem tetra_move (sq : α → α) (temp a : α) (ht : sq (a ^ 2 + a ^ 2 + a ^ 2) ≠ 0) :
    movePass sq temp 4 [⟨a, a, a⟩, ⟨-a, -a, a⟩, ⟨-a, a, -a⟩, ⟨a, -a, -a⟩] (tetraV : List (Vec3 α)) =
      .ok [⟨0 + a / sq (a ^ 2 + a ^ 2 + a ^ 2) * min temp |a|,
            0 + a / sq (a ^ 2 + a ^ 2 + a ^ 2) * min temp |a|,
            0 + a / sq (a ^ 2 + a ^ 2 + a ^ 2) * min temp |a|⟩,
           ⟨1 + -a / sq (a ^ 2 + a ^ 2 + a ^ 2) * min temp |a|,
            1 + -a / sq (a ^ 2 + a ^ 2 + a ^ 2) * min temp |a|,
            0 + a / sq (a ^ 2 + a ^ 2 + a ^ 2) * min temp |a|⟩,
           ⟨1 + -a / sq (a ^ 2 + a ^ 2 + a ^ 2) * min temp |a|,
            0 + a / sq (a ^ 2 + a ^ 2 + a ^ 2) * min temp |a|,
            1 + -a / sq (a ^ 2 + a ^ 2 + a ^ 2) * min temp |a|⟩,
           ⟨0 + a / sq (a ^ 2 + a ^ 2 + a ^ 2) * min temp |a|,
            1 + -a / sq (a ^ 2 + a ^ 2 + a ^ 2) * min temp |a|,
            1 + -a / sq (a ^ 2 + a ^ 2 + a ^ 2) * min temp |a|⟩] := by
  have e : (List.range 4) = [0,1,2,3] := by decide
  simp only [movePass, tetraV, e]
  simp [getV, ok_bind, pure_eq_ok, moveVertex_eq, moved, ht]

/-- The state after the first iteration on the tetrahedron with `dist_opt = 1`. -/
theorem tetra_first_iteration (sq : α → α) (hsq0 : ∀ x, 0 ≤ sq x)
    (hsq : ∀ x, 0 ≤ x → sq x * sq x = x) (ts : α) (n : Int) (hn : n ≠ 0) :
    ∃ r, iterations sq (tetraV : List (Vec3 α)) (extractEdges tetraF) 1 ts n 1 = .ok (r, ts) ∧
      movePass sq ts 4 [⟨2 * sq 2 - 1, 2 * sq 2 - 1, 2 * sq 2 - 1⟩,
        ⟨-(2 * sq 2 - 1), -(2 * sq 2 - 1), 2 * sq 2 - 1⟩,
        ⟨-(2 * sq 2 - 1), 2 * sq 2 - 1, -(2 * sq 2 - 1)⟩,
        ⟨2 * sq 2 - 1, -(2 * sq 2 - 1), -(2 * sq 2 - 1)⟩] tetraV = .ok r := by
  obtain ⟨h2, h1⟩ := sqrt_two_facts sq hsq0 hsq
  have hpos : 0 < sq 2 := by linarith
  have hd := tetra_displacement sq h2 hpos
  obtain ⟨r, hr⟩ := movePass_ok sq ts 4 [⟨2 * sq 2 - 1, 2 * sq 2 - 1, 2 * sq 2 - 1⟩,
        ⟨-(2 * sq 2 - 1), -(2 * sq 2 - 1), 2 * sq 2 - 1⟩,
        ⟨-(2 * sq 2 - 1), 2 * sq 2 - 1, -(2 * sq 2 - 1)⟩,
        ⟨2 * sq 2 - 1, -(2 * sq 2 - 1), -(2 * sq 2 - 1)⟩] (tetraV : List (Vec3 α))
        (by simp) (by simp [tetraV])
  refine ⟨r, ?_, hr⟩
  rw [iterations_succ_eq_ok]
  refine ⟨(tetraV, ts), rfl, ?_⟩
  rw [iteration_eq_ok]
  refine ⟨_, hd, r, hr, Int.cast_ne_zero.2 hn, ?_⟩
  simp

theorem layout_of_not_accepted (sq : α → α) (vertex : List (Vec3 α)) (face : List Face)
    (k ts : α) (n : Int) (h : ¬ accepted vertex face) :
    layout_with_fr_3d sq vertex face k ts n = .error .assertEdges ∨
      layout_with_fr_3d sq vertex face k ts n = .error .assertEuler := by
  rw [accepted_iff] at h
  cases hc : checkTopology vertex.length face (extractEdges face) with
  | ok u => exact absurd hc h
  | error e =>
    rw [layout_of_check_error sq vertex face k ts n e hc]
    unfold checkTopology at hc
    split_ifs at hc <;> cases hc
    · exact Or.inr rfl
    · exact Or.inl rfl

theorem accepted_arith {β : Type} (vertex : List β) (face : List Face)
    (hV : vertex.length < 2 ^ 62) (hF : face.length < 2 ^ 62) :
    accepted vertex face ↔
      (extractEdges face).length = 3 * face.length / 2 ∧
        vertex.length + face.length = (extractEdges face).length + 2 := by
  rw [accepted_iff, checkTopology_eq_ok]
  obtain ⟨h1, h2⟩ := checkTopology_arith vertex.length face.length (extractEdges face).length
    hV hF (length_extractEdges_le face)
  unfold size
  rw [h1, h2]

theorem iterations_error_of_displacement (sq : α → α) (vertex : List (Vec3 α)) (E : List Edge)
    (k ts : α) (n : Int) (h : ∃ e, displacement sq vertex E k = .error e) (j : Nat) :
    ∃ e, iterations sq vertex E k ts n (j + 1) = .error e := by
  obtain ⟨e, he⟩ := h
  rw [iterations]
  cases hs : iterations sq vertex E k ts n j with
  | error e' => exact ⟨e', by rw [error_bind]⟩
  | ok s =>
    rw [ok_bind]
    unfold iteration
    rw [he, error_bind]
    exact ⟨e, rfl⟩

theorem layout_error_of_displacement (sq : α → α) (vertex : List (Vec3 α)) (face : List Face)
    (k ts : α) (n : Int) (hn : 1 ≤ n)
    (h : ∃ e, displacement sq vertex (extractEdges face) k = .error e) :
    ∃ e, layout_with_fr_3d sq vertex face k ts n = .error e := by
  by_cases hacc : accepted vertex face
  · rw [layout_of_accepted sq vertex face k ts n hacc]
    have hj : n.toNat = (n.toNat - 1) + 1 := by omega
    rw [hj]
    obtain ⟨e, he⟩ := iterations_error_of_displacement sq vertex _ k ts n h (n.toNat - 1)
    exact ⟨e, by rw [he, error_bind]⟩
  · rcases layout_of_not_accepted sq vertex face k ts n hacc with h | h
    · exact ⟨_, h⟩
    · exact ⟨_, h⟩

theorem displacement_error_of_edge (sq : α → α) (vertex : List (Vec3 α)) (E : List Edge)
    (k : α) (e : Edge) (he : e ∈ E)
    (hf : ∀ d, ∃ er, attractEdge sq vertex k e d = .error er) :
    ∃ er, displacement sq vertex E k = .error er := by
  unfold displacement
  cases hr : repulsion sq vertex k (List.replicate vertex.length 0) with
  | error er => exact ⟨er, by rw [error_bind]⟩
  | ok d1 =>
    rw [ok_bind]
    unfold attraction
    exact foldlM_error_of_mem _ E e he hf d1

theorem exists_edge_out_of_range (n : Nat) (face : List Face) (h : ¬ facesInRange n face) :
    ∃ e ∈ extractEdges face, n ≤ e.1 ∨ n ≤ e.2 := by
  unfold facesInRange at h
  push_neg at h
  obtain ⟨f, hf, hlt⟩ := h
  by_cases h1 : f.1 < n
  · by_cases h2 : f.2.1 < n
    · have h3 : n ≤ f.2.2 := by
        by_contra hc
        exact absurd (hlt h1 h2) hc
      refine ⟨(min f.2.2 f.1, max f.2.2 f.1),
        (mem_extractEdges face _).2 ⟨f, hf, Or.inr (Or.inr rfl)⟩, Or.inr ?_⟩
      simp only
      omega
    · refine ⟨(min f.1 f.2.1, max f.1 f.2.1),
        (mem_extractEdges face _).2 ⟨f, hf, Or.inl rfl⟩, Or.inr ?_⟩
      simp only
      omega
  · refine ⟨(min f.1 f.2.1, max f.1 f.2.1),
      (mem_extractEdges face _).2 ⟨f, hf, Or.inl rfl⟩, Or.inr ?_⟩
    simp only
    omega

/-! ## The program in `double` arithmetic -/

theorem log_two_eq (q : ℚ) (e : ℤ) (h1 : (2 : ℚ) ^ e ≤ |q|) (h2 : |q| < (2 : ℚ) ^ (e + 1)) :
    Int.log 2 |q| = e := by
  have hpos : (0 : ℚ) < |q| := lt_of_lt_of_le (by positivity) h1
  have a : e ≤ Int.log 2 |q| := (Int.zpow_le_iff_le_log (by norm_num) hpos).1 (by exact_mod_cast h1)
  have b : Int.log 2 |q| < e + 1 := (Int.lt_zpow_iff_log_lt (by norm_num) hpos).1 (by exact_mod_cast h2)
  omega

theorem roundHalfEven_intCast (n : ℤ) : roundHalfEven (n : ℚ) = n := by
  unfold roundHalfEven
  simp

/-- A number with a significand of 53 bits is its own rounding. -/
theorem roundDouble_of_significand (n e : ℤ) (h1 : 2 ^ 52 ≤ |n|) (h2 : |n| < 2 ^ 53) :
    roundDouble ((n : ℚ) * 2 ^ (e - 52)) = (n : ℚ) * 2 ^ (e - 52) := by
  have hn0 : (n : ℚ) ≠ 0 := by
    intro h
    have : n = 0 := by exact_mod_cast h
    rw [this] at h1
    norm_num at h1
  have hp : (0 : ℚ) < 2 ^ (e - 52) := by positivity
  have hq0 : (n : ℚ) * 2 ^ (e - 52) ≠ 0 := mul_ne_zero hn0 hp.ne'
  have habs : |(n : ℚ) * 2 ^ (e - 52)| = |(n : ℚ)| * 2 ^ (e - 52) := by
    rw [abs_mul, abs_of_pos hp]
  have hc1 : (2 : ℚ) ^ (52 : ℤ) ≤ |(n : ℚ)| := by
    have : ((2 ^ 52 : ℤ) : ℚ) ≤ ((|n| : ℤ) : ℚ) := by exact_mod_cast h1
    rw [Int.cast_abs] at this
    norm_num at this ⊢
    exact this
  have hc2 : |(n : ℚ)| < (2 : ℚ) ^ (53 : ℤ) := by
    have : ((|n| : ℤ) : ℚ) < ((2 ^ 53 : ℤ) : ℚ) := by exact_mod_cast h2
    rw [Int.cast_abs] at this
    norm_num at this ⊢
    exact this
  have hlog : Int.log 2 |(n : ℚ) * 2 ^ (e - 52)| = e := by
    apply log_two_eq
    · rw [habs]
      have : (2 : ℚ) ^ e = 2 ^ (52 : ℤ) * 2 ^ (e - 52) := by
        rw [← zpow_add₀ (by norm_num : (2 : ℚ) ≠ 0)]; congr 1; ring
      rw [this]
      exact mul_le_mul_of_nonneg_right hc1 hp.le
    · rw [habs]
      have : (2 : ℚ) ^ (e + 1) = 2 ^ (53 : ℤ) * 2 ^ (e - 52) := by
        rw [← zpow_add₀ (by norm_num : (2 : ℚ) ≠ 0)]; congr 1; ring
      rw [this]
      exact mul_lt_mul_of_pos_right hc2 hp
  unfold roundDouble
  rw [if_neg hq0, hlog, mul_div_assoc, div_self hp.ne', mul_one, roundHalfEven_intCast]

theorem roundDouble_zero : roundDouble 0 = 0 := by
  unfold roundDouble
  rw [if_pos rfl]

theorem roundDouble_one : roundDouble 1 = 1 := by
  have h := roundDouble_of_significand (2 ^ 52) 0 (by norm_num) (by norm_num)
  norm_num at h
  exact h

theorem roundDouble_neg_one : roundDouble (-1) = -1 := by
  have h := roundDouble_of_significand (-(2 ^ 52)) 0 (by norm_num) (by norm_num)
  norm_num at h
  exact h

theorem roundDouble_tenth : roundDouble tenth = tenth := by
  have h := roundDouble_of_significand 7205759403792794 (-4) (by norm_num) (by norm_num)
  have e : ((7205759403792794 : ℤ) : ℚ) * 2 ^ ((-4 : ℤ) - 52) = tenth := by
    unfold tenth
    norm_num
  rw [e] at h
  exact h

theorem roundDouble_neg_tenth : roundDouble (-tenth) = -tenth := by
  have h := roundDouble_of_significand (-7205759403792794) (-4) (by norm_num) (by norm_num)
  have e : ((-7205759403792794 : ℤ) : ℚ) * 2 ^ ((-4 : ℤ) - 52) = -tenth := by
    unfold tenth
    norm_num
  rw [e] at h
  exact h

/-- `1 + 0.1` is not a `double`; it rounds upwards. -/
theorem roundDouble_one_add_tenth :
    roundDouble (1 + tenth) = 2476979795053773 / 2251799813685248 := by
  have hlog : Int.log 2 |1 + tenth| = 0 := by
    apply log_two_eq
    · unfold tenth; norm_num [abs_of_pos]
    · unfold tenth; norm_num [abs_of_pos]
  have hne : (1 : ℚ) + tenth ≠ 0 := by unfold tenth; norm_num
  have hfloor : ⌊(1 + tenth) / 2 ^ ((0 : ℤ) - 52)⌋ = 4953959590107545 := by
    rw [Int.floor_eq_iff]
    unfold tenth
    norm_num
  unfold roundDouble
  rw [if_neg hne, hlog]
  unfold roundHalfEven
  rw [hfloor]
  unfold tenth
  norm_num

theorem sqrtDouble_one : sqrtDouble 1 = 1 := by
  unfold sqrtDouble
  norm_num
  exact roundDouble_one

section
variable {α : Type} [LinearOrderedField α]

theorem rounded_id_repulsePair (sq : α → α) (vertex : List (Vec3 α)) (k : α) (vi ui : Nat)
    (disp : List (Vec3 α)) :
    Rounded.repulsePair id sq vertex k vi ui disp = repulsePair sq vertex k vi ui disp := rfl

theorem rounded_id_attractEdge (sq : α → α) (vertex : List (Vec3 α)) (k : α) (e : Edge)
    (disp : List (Vec3 α)) :
    Rounded.attractEdge id sq vertex k e disp = attractEdge sq vertex k e disp := rfl

theorem rounded_id_displacement (sq : α → α) (vertex : List (Vec3 α)) (E : List Edge) (k : α) :
    Rounded.displacement id sq vertex E k = displacement sq vertex E k := rfl

theorem rounded_id_moveVertex (sq : α → α) (temp : α) (p d : Vec3 α) :
    Rounded.moveVertex id sq temp p d = moveVertex sq temp p d := rfl

theorem rounded_id_movePass (sq : α → α) (temp : α) (n : Nat) (disp ret : List (Vec3 α)) :
    Rounded.movePass id sq temp n disp ret = movePass sq temp n disp ret := rfl

theorem rounded_id_iteration (sq : α → α) (vertex : List (Vec3 α)) (E : List Edge)
    (k ts : α) (n : Int) (i : Nat) (s : List (Vec3 α) × α) :
    Rounded.iteration id sq vertex E k ts n i s = iteration sq vertex E k ts n i s := rfl

theorem rounded_id_iterations (sq : α → α) (vertex : List (Vec3 α)) (E : List Edge)
    (k ts : α) (n : Int) (j : Nat) :
    Rounded.iterations id sq vertex E k ts n j = iterations sq vertex E k ts n j := by
  induction j with
  | zero => rfl
  | succ m ih =>
    rw [Rounded.iterations, iterations, ih]
    rfl

/-- With the identity for `rnd`, the rounded program is the exact one. -/
theorem rounded_id_layout (sq : α → α) (vertex : List (Vec3 α)) (face : List Face)
    (k ts : α) (n : Int) :
    Rounded.layout_with_fr_3d id sq vertex face k ts n =
      layout_with_fr_3d sq vertex face k ts n := by
  unfold Rounded.layout_with_fr_3d layout_with_fr_3d
  simp only [rounded_id_iterations]

end

theorem check_two_empty : checkTopology 2 [] [] = .ok () := by rfl

section
variable {α : Type} [LinearOrderedField α]

/-- The rounded call on the vertices `(0,0,0)`, `(1,0,0)` with no face, `dist_opt = 1` and
`n_iter = 1`, for a rounding that keeps `0`, `1`, `-1`, `t` and `-t`. -/
theorem rounded_two_vertices_eval (rnd sq : α → α) (t : α) (h0 : rnd 0 = 0) (h1 : rnd 1 = 1)
    (hm1 : rnd (-1) = -1) (ht : rnd t = t) (hmt : rnd (-t) = -t) (hs : sq 1 = 1)
    (ht0 : 0 ≤ t) (ht1 : t ≤ 1) :
    Rounded.layout_with_fr_3d rnd sq [(⟨0, 0, 0⟩ : Vec3 α), ⟨1, 0, 0⟩] [] 1 t 1 =
      .ok [⟨-t, 0, 0⟩, ⟨rnd (1 + t), 0, 0⟩] := by
  have e2 : List.range 2 = [0, 1] := by decide
  have hacc := check_two_empty
  have hn : (1 : Int).toNat = 1 := rfl
  have hmin1 : min t 1 = t := min_eq_left ht1
  have hmin0 : min t 0 = 0 := min_eq_right ht0
  unfold Rounded.layout_with_fr_3d
  simp only [List.length_cons, List.length_nil, hacc, ok_bind, hn, Rounded.iterations,
    Rounded.iteration, Rounded.displacement, Rounded.repulsion, Rounded.attraction,
    Rounded.movePass, e2, extractEdges, List.foldl_nil]
  norm_num [List.range', Rounded.repulsePair, getV, ok_bind, pure_eq_ok, Rounded.cdiv,
    Rounded.fr, Rounded.addAt, Rounded.subAt, zero_x, zero_y, zero_z, List.replicate,
    Rounded.moveVertex, h0, h1, hm1, ht, hmt, hs, hmin1, hmin0]

end

/-- The call in `double` arithmetic on the vertices `(0,0,0)`, `(1,0,0)` with no face,
`dist_opt = 1`, `temp_start = 0.1` and `n_iter = 1`. -/
theorem rounded_two_vertices :
    Rounded.layout_with_fr_3d roundDouble sqrtDouble [(⟨0, 0, 0⟩ : Vec3 ℚ), ⟨1, 0, 0⟩] [] 1
      tenth 1 =
      .ok [⟨-tenth, 0, 0⟩, ⟨2476979795053773 / 2251799813685248, 0, 0⟩] := by
  rw [rounded_two_vertices_eval roundDouble sqrtDouble tenth roundDouble_zero roundDouble_one
    roundDouble_neg_one roundDouble_tenth roundDouble_neg_tenth sqrtDouble_one
    (by unfold tenth; norm_num) (by unfold tenth; norm_num), roundDouble_one_add_tenth]

/-! ## The claims -/

theorem tetra_check : checkTopology 4 tetraF (extractEdges tetraF) = .ok () := by rfl

theorem tetra_accepted : accepted (tetraV : List (Vec3 α)) tetraF :=
  (accepted_iff _ _).2 tetra_check

/-- C1: an input that passes the topology assertions is returned unchanged, element by
element, by a call with `n_iter = 0`, whatever `dist_opt` and `temp_start` are. -/
theorem zero_iterations_identity (sq : α → α) (vertex : List (Vec3 α)) (face : List Face)
    (dist_opt temp_start : α) (h : accepted vertex face) :
    layout_with_fr_3d sq vertex face dist_opt temp_start 0 = .ok vertex :=
  layout_zero sq vertex face dist_opt temp_start 0 (le_refl 0) h

theorem zero_iterations_identity_witness :
    accepted (tetraV : List (Vec3 ℝ)) tetraF ∧
      layout_with_fr_3d Real.sqrt (tetraV : List (Vec3 ℝ)) tetraF 1 (1 / 10) 0 = .ok tetraV :=
  ⟨by decide, zero_iterations_identity Real.sqrt tetraV tetraF 1 (1 / 10) (by decide)⟩

/-- C3, refuted as stated: two vertices with the single face `(0, 0, 0)` give one edge, so
`2 * |E| = 2` and `3 * |F| = 3`, yet the call gets past both assertions and returns a
layout, with `n_iter = 0` and with `n_iter = 1`. -/
theorem topology_counterexample :
    2 * (extractEdges [(0, 0, 0)]).length ≠ 3 * ([(0, 0, 0)] : List Face).length ∧
    layout_with_fr_3d Real.sqrt [(⟨0, 0, 0⟩ : Vec3 ℝ), ⟨1, 0, 0⟩] [(0, 0, 0)] 1 (1 / 10) 0 =
      .ok [⟨0, 0, 0⟩, ⟨1, 0, 0⟩] ∧
    ∃ r, layout_with_fr_3d Real.sqrt [(⟨0, 0, 0⟩ : Vec3 ℝ), ⟨1, 0, 0⟩] [(0, 0, 0)] 1 (1 / 10) 1 =
      .ok r := by
  refine ⟨by decide, ?_, ?_⟩
  · exact layout_zero Real.sqrt _ _ 1 (1 / 10) 0 (le_refl 0) (by decide)
  · exact layout_ok Real.sqrt Real.sqrt_nonneg _ _ 1 (1 / 10) 1 one_pos (by decide)
      (by simp [facesInRange])

/-- C3, amended: with sizes below `2 ^ 62`, a call returns a layout only if
`|E| = ⌊3 * |F| / 2⌋` and `|V| + |F| = |E| + 2`; an input violating either relation fails
one of the two topology assertions, whatever `n_iter` is; a single triangle on three
vertices fails the first assertion; the four faces of the tetrahedron give exactly six
edges and are accepted. -/
theorem topology_assertions (sq : α → α) (vertex : List (Vec3 α)) (face : List Face)
    (dist_opt temp_start : α) (n_iter : Int)
    (hV : vertex.length < 2 ^ 62) (hF : face.length < 2 ^ 62) :
    ((∃ r, layout_with_fr_3d sq vertex face dist_opt temp_start n_iter = .ok r) →
      (extractEdges face).length = 3 * face.length / 2 ∧
        vertex.length + face.length = (extractEdges face).length + 2) ∧
    (¬ ((extractEdges face).length = 3 * face.length / 2 ∧
        vertex.length + face.length = (extractEdges face).length + 2) →
      layout_with_fr_3d sq vertex face dist_opt temp_start n_iter = .error .assertEdges ∨
        layout_with_fr_3d sq vertex face dist_opt temp_start n_iter = .error .assertEuler) ∧
    (∀ a b c : Vec3 α,
      layout_with_fr_3d sq [a, b, c] [(0, 1, 2)] dist_opt temp_start n_iter =
        .error .assertEdges) ∧
    extractEdges tetraF = [(0, 1), (0, 2), (0, 3), (1, 2), (1, 3), (2, 3)] ∧
    accepted (tetraV : List (Vec3 α)) tetraF := by
  have hrej : ¬ ((extractEdges face).length = 3 * face.length / 2 ∧
        vertex.length + face.length = (extractEdges face).length + 2) →
      layout_with_fr_3d sq vertex face dist_opt temp_start n_iter = .error .assertEdges ∨
        layout_with_fr_3d sq vertex face dist_opt temp_start n_iter = .error .assertEuler := by
    intro h
    exact layout_of_not_accepted sq vertex face dist_opt temp_start n_iter
      (fun hacc => h ((accepted_arith vertex face hV hF).1 hacc))
  refine ⟨?_, hrej, ?_, tetra_edges, tetra_accepted⟩
  · rintro ⟨r, hr⟩
    by_contra hc
    rcases hrej hc with h | h <;> rw [h] at hr <;> cases hr
  · intro a b c
    exact layout_of_check_error sq [a, b, c] [(0, 1, 2)] dist_opt temp_start n_iter _ rfl

theorem topology_assertions_witness :
    (tetraV : List (Vec3 ℝ)).length < 2 ^ 62 ∧ tetraF.length < 2 ^ 62 ∧
    (((∃ r, layout_with_fr_3d Real.sqrt (tetraV : List (Vec3 ℝ)) tetraF 1 (1 / 10) 1 = .ok r) →
      (extractEdges tetraF).length = 3 * tetraF.length / 2 ∧
        (tetraV : List (Vec3 ℝ)).length + tetraF.length = (extractEdges tetraF).length + 2) ∧
    (¬ ((extractEdges tetraF).length = 3 * tetraF.length / 2 ∧
        (tetraV : List (Vec3 ℝ)).length + tetraF.length = (extractEdges tetraF).length + 2) →
      layout_with_fr_3d Real.sqrt (tetraV : List (Vec3 ℝ)) tetraF 1 (1 / 10) 1 =
          .error .assertEdges ∨
        layout_with_fr_3d Real.sqrt (tetraV : List (Vec3 ℝ)) tetraF 1 (1 / 10) 1 =
          .error .assertEuler) ∧
    (∀ a b c : Vec3 ℝ,
      layout_with_fr_3d Real.sqrt [a, b, c] [(0, 1, 2)] 1 (1 / 10) 1 = .error .assertEdges) ∧
    extractEdges tetraF = [(0, 1), (0, 2), (0, 3), (1, 2), (1, 3), (2, 3)] ∧
    accepted (tetraV : List (Vec3 ℝ)) tetraF) :=
  ⟨by decide, by decide,
    topology_assertions Real.sqrt tetraV tetraF 1 (1 / 10) 1 (by decide) (by decide)⟩

/-- C4, refuted as stated: on the tetrahedron, `dist_opt = 0` and `n_iter = 0` return the
input unchanged; no assertion fails. -/
theorem nonpositive_dist_opt_counterexample :
    layout_with_fr_3d Real.sqrt (tetraV : List (Vec3 ℝ)) tetraF 0 (1 / 10) 0 = .ok tetraV :=
  layout_zero Real.sqrt tetraV tetraF 0 (1 / 10) 0 (le_refl 0) tetra_accepted

/-- C4, amended: with `dist_opt ≤ 0` on an input that passes the topology assertions, a call
with `n_iter ≤ 0` evaluates no force and returns the input unchanged; a call with
`n_iter ≥ 1` returns no layout as soon as some element of `E` joins two vertices at a
distance `D ≠ 0`: it fails by `assert(k > 0)` of `fa`, or by an index beyond `vertex`. -/
theorem nonpositive_dist_opt (sq : α → α) (hsq0 : ∀ x, 0 ≤ sq x) (vertex : List (Vec3 α))
    (face : List Face) (dist_opt temp_start : α) (n_iter : Int) (hk : dist_opt ≤ 0)
    (hacc : accepted vertex face) :
    (n_iter ≤ 0 → layout_with_fr_3d sq vertex face dist_opt temp_start n_iter = .ok vertex) ∧
    (1 ≤ n_iter →
      (∃ e ∈ extractEdges face, ∃ pv pu, vertex[e.1]? = some pv ∧ vertex[e.2]? = some pu ∧
        dist sq pv pu ≠ 0) →
      layout_with_fr_3d sq vertex face dist_opt temp_start n_iter = .error .assertFa ∨
        layout_with_fr_3d sq vertex face dist_opt temp_start n_iter = .error .outOfBounds) := by
  refine ⟨fun hn => layout_zero sq vertex face dist_opt temp_start n_iter hn hacc, ?_⟩
  rintro hn ⟨e, he, pv, pu, hv, hu, hD⟩
  have hdisp : ∃ er, displacement sq vertex (extractEdges face) dist_opt = .error er := by
    refine displacement_error_of_edge sq vertex _ dist_opt e he ?_
    intro d
    rw [attractEdge_eq sq vertex dist_opt e d pv pu hv hu, if_pos hD, if_neg (not_lt.2 hk)]
    exact ⟨_, rfl⟩
  obtain ⟨er, her⟩ := layout_error_of_displacement sq vertex face dist_opt temp_start n_iter hn
    hdisp
  rcases layout_error sq hsq0 vertex face dist_opt temp_start n_iter hacc er her with h | h
  · exact Or.inr (by rw [her, h])
  · exact Or.inl (by rw [her, h.1])

theorem nonpositive_dist_opt_witness :
    (0 : ℝ) ≤ 0 ∧ accepted (tetraV : List (Vec3 ℝ)) tetraF ∧
    (layout_with_fr_3d Real.sqrt (tetraV : List (Vec3 ℝ)) tetraF 0 (1 / 10) 1 =
        .error .assertFa ∨
      layout_with_fr_3d Real.sqrt (tetraV : List (Vec3 ℝ)) tetraF 0 (1 / 10) 1 =
        .error .outOfBounds) :=
  ⟨le_refl 0, tetra_accepted,
    (nonpositive_dist_opt Real.sqrt Real.sqrt_nonneg tetraV tetraF 0 (1 / 10) 1 (le_refl 0)
      tetra_accepted).2 (by decide)
      ⟨(0, 1), by decide, ⟨0, 0, 0⟩, ⟨1, 1, 0⟩, rfl, rfl, by norm_num [dist]⟩⟩

/-- C5, refuted as stated: the faces `(0,1,2), (0,1,7), (0,2,7), (1,2,7)` on the four
vertices of the tetrahedron name the index `7`, yet the call with `n_iter = 0` returns the
input unchanged. -/
theorem index_out_of_range_counterexample :
    ¬ facesInRange (tetraV : List (Vec3 ℝ)).length [(0, 1, 2), (0, 1, 7), (0, 2, 7), (1, 2, 7)] ∧
    layout_with_fr_3d Real.sqrt (tetraV : List (Vec3 ℝ))
      [(0, 1, 2), (0, 1, 7), (0, 2, 7), (1, 2, 7)] 1 (1 / 10) 0 = .ok tetraV := by
  refine ⟨?_, layout_zero Real.sqrt tetraV _ 1 (1 / 10) 0 (le_refl 0) (by decide)⟩
  simp [facesInRange, tetraV]

/-- C5, amended: the source never compares a face index with the number of vertices. When
some face has an index outside `[0, N)`, a call with `n_iter ≥ 1` returns no layout (an
assertion fails, or the attraction pass indexes `vertex` beyond its end, a failure of the
model); a call with `n_iter ≤ 0` on an input that passes the topology assertions returns
the input unchanged. -/
theorem index_out_of_range (sq : α → α) (vertex : List (Vec3 α)) (face : List Face)
    (dist_opt temp_start : α) (n_iter : Int) (h : ¬ facesInRange vertex.length face) :
    (accepted vertex face → n_iter ≤ 0 →
      layout_with_fr_3d sq vertex face dist_opt temp_start n_iter = .ok vertex) ∧
    (1 ≤ n_iter → ∃ er, layout_with_fr_3d sq vertex face dist_opt temp_start n_iter =
      .error er) := by
  refine ⟨fun hacc hn => layout_zero sq vertex face dist_opt temp_start n_iter hn hacc, ?_⟩
  intro hn
  obtain ⟨e, he, hout⟩ := exists_edge_out_of_range vertex.length face h
  refine layout_error_of_displacement sq vertex face dist_opt temp_start n_iter hn
    (displacement_error_of_edge sq vertex _ dist_opt e he ?_)
  intro d
  refine ⟨_, attractEdge_of_none sq vertex dist_opt e d ?_⟩
  rcases hout with h1 | h2
  · exact Or.inl (List.getElem?_eq_none h1)
  · exact Or.inr (List.getElem?_eq_none h2)

theorem index_out_of_range_witness :
    ¬ facesInRange (tetraV : List (Vec3 ℝ)).length [(0, 1, 2), (0, 1, 7), (0, 2, 7), (1, 2, 7)] ∧
    ∃ er, layout_with_fr_3d Real.sqrt (tetraV : List (Vec3 ℝ))
      [(0, 1, 2), (0, 1, 7), (0, 2, 7), (1, 2, 7)] 1 (1 / 10) 1 = .error er :=
  ⟨by simp [facesInRange, tetraV],
    (index_out_of_range Real.sqrt tetraV [(0, 1, 2), (0, 1, 7), (0, 2, 7), (1, 2, 7)] 1 (1 / 10) 1
      (by simp [facesInRange, tetraV])).2 (by decide)⟩

/-- C6, refuted as stated: two vertices and an empty face list pass both assertions, and
the call with `n_iter = 1` returns a layout. -/
theorem degenerate_mesh_counterexample :
    layout_with_fr_3d Real.sqrt [(⟨0, 0, 0⟩ : Vec3 ℝ), ⟨1, 0, 0⟩] [] 1 (1 / 10) 1 =
      .ok [⟨-(1 / 10), 0, 0⟩, ⟨11 / 10, 0, 0⟩] := by
  have e2 : List.range 2 = [0, 1] := by decide
  rw [layout_of_accepted _ _ _ _ _ _ (by decide)]
  have ht : (1 : Int).toNat = 1 := rfl
  rw [ht]
  simp only [iterations, iteration, displacement, repulsion, attraction, extractEdges, movePass,
    List.length_cons, List.length_nil, e2, List.foldl_nil]
  norm_num [List.range', repulsePair, getV, ok_bind, pure_eq_ok, cdiv, fr, addAt, subAt,
    zero_x, zero_y, zero_z, List.replicate, moveVertex_eq, moved]

/-- C6, amended: with sizes below `2 ^ 62`, a call with fewer than two vertices fails a
topology assertion; a call with an empty face list fails the second assertion unless there
are exactly two vertices, and with exactly two vertices and no face both assertions pass
and the call returns a layout. -/
theorem degenerate_mesh (sq : α → α) (hsq0 : ∀ x, 0 ≤ sq x) (vertex : List (Vec3 α))
    (face : List Face) (dist_opt temp_start : α) (n_iter : Int)
    (hV : vertex.length < 2 ^ 62) (hF : face.length < 2 ^ 62) :
    (vertex.length < 2 →
      layout_with_fr_3d sq vertex face dist_opt temp_start n_iter = .error .assertEdges ∨
        layout_with_fr_3d sq vertex face dist_opt temp_start n_iter = .error .assertEuler) ∧
    (face = [] → vertex.length ≠ 2 →
      layout_with_fr_3d sq vertex face dist_opt temp_start n_iter = .error .assertEuler) ∧
    (face = [] → vertex.length = 2 →
      accepted vertex face ∧
        ∃ r, layout_with_fr_3d sq vertex face dist_opt temp_start n_iter = .ok r) := by
  have harith := accepted_arith vertex face hV hF
  have hle := length_extractEdges_le face
  refine ⟨?_, ?_, ?_⟩
  · intro h2
    refine layout_of_not_accepted sq vertex face dist_opt temp_start n_iter ?_
    intro hacc
    obtain ⟨h3, h4⟩ := harith.1 hacc
    omega
  · intro hf hne
    subst hf
    have hnot : ¬ accepted vertex ([] : List Face) := by
      intro hacc
      obtain ⟨h3, h4⟩ := harith.1 hacc
      simp [extractEdges] at h4
      exact hne h4
    rw [accepted_iff] at hnot
    cases hc : checkTopology vertex.length [] (extractEdges []) with
    | ok u => exact absurd hc hnot
    | error e =>
      rw [layout_of_check_error sq vertex [] dist_opt temp_start n_iter e hc]
      have he : e = .assertEuler := by
        unfold checkTopology at hc
        have h0 : size (extractEdges []) = sizeMul (size ([] : List Face)) 3 / 2 := by decide
        rw [if_pos h0] at hc
        split_ifs at hc
        cases hc
        rfl
      rw [he]
  · intro hf h2
    subst hf
    have hacc : accepted vertex ([] : List Face) := by
      refine harith.2 ⟨?_, ?_⟩
      · simp [extractEdges]
      · simp [extractEdges, h2]
    refine ⟨hacc, ?_⟩
    have hE : edgesInRange vertex.length (extractEdges []) := by
      intro e he
      simp [extractEdges] at he
    by_cases hn : n_iter.toNat = 0
    · exact ⟨vertex, layout_zero sq vertex [] dist_opt temp_start n_iter (by omega) hacc⟩
    · have hn0 : n_iter ≠ 0 := by omega
      have hdisp : ∃ disp, displacement sq vertex (extractEdges []) dist_opt = .ok disp := by
        unfold displacement
        obtain ⟨d1, h1⟩ := repulsion_ok sq hsq0 vertex dist_opt
          (List.replicate vertex.length 0) (by simp)
        exact ⟨d1, by rw [h1, ok_bind]; simp [extractEdges, attraction, pure_eq_ok]⟩
      obtain ⟨disp, hd⟩ := hdisp
      have hdl := (displacement_inv sq vertex _ dist_opt disp hd).1
      have key : ∀ j, ∃ s, iterations sq vertex (extractEdges []) dist_opt temp_start n_iter j
          = .ok s := by
        intro j
        induction j with
        | zero => exact ⟨(vertex, temp_start), rfl⟩
        | succ m ih =>
          obtain ⟨s0, h0⟩ := ih
          have hsl := (iterations_inv sq vertex _ dist_opt temp_start n_iter m s0 h0).1
          obtain ⟨r, hr⟩ := movePass_ok sq s0.2 vertex.length disp s0.1 (by omega) (by omega)
          exact ⟨_, (iterations_succ_eq_ok sq vertex _ dist_opt temp_start n_iter m _).2 ⟨s0, h0,
            (iteration_eq_ok sq vertex _ dist_opt temp_start n_iter m s0 _).2
              ⟨disp, hd, r, hr, Int.cast_ne_zero.2 hn0, rfl⟩⟩⟩
      obtain ⟨s, hs⟩ := key n_iter.toNat
      exact ⟨s.1, (layout_eq_ok sq vertex [] dist_opt temp_start n_iter hacc s.1).2 ⟨s.2, hs⟩⟩

theorem degenerate_mesh_witness :
    (∀ x : ℝ, 0 ≤ Real.sqrt x) ∧ ([(⟨0, 0, 0⟩ : Vec3 ℝ)]).length < 2 ^ 62 ∧
    ([] : List Face).length < 2 ^ 62 ∧ ([(⟨0, 0, 0⟩ : Vec3 ℝ)]).length < 2 ∧
    (layout_with_fr_3d Real.sqrt [(⟨0, 0, 0⟩ : Vec3 ℝ)] [] 1 (1 / 10) 1 = .error .assertEdges ∨
      layout_with_fr_3d Real.sqrt [(⟨0, 0, 0⟩ : Vec3 ℝ)] [] 1 (1 / 10) 1 = .error .assertEuler) :=
  ⟨Real.sqrt_nonneg, by decide, by decide, by decide,
    (degenerate_mesh Real.sqrt Real.sqrt_nonneg [(⟨0, 0, 0⟩ : Vec3 ℝ)] [] 1 (1 / 10) 1
      (by decide) (by decide)).1 (by decide)⟩

theorem dist_self (sq : α → α) (hsq : ∀ x, 0 ≤ x → sq x * sq x = x) (p : Vec3 α) :
    dist sq p p = 0 := by
  unfold dist
  simp only [sub_self, mul_zero, add_zero]
  exact sq_zero_of_axiom sq hsq

/-- C2, refuted as stated: in `double` arithmetic the call on the vertices `(0,0,0)`,
`(1,0,0)` with no face, `dist_opt = 1`, `temp_start = 0.1` and `n_iter = 1` passes both
assertions and moves the first coordinate of the second vertex from `1` to the `double`
nearest to `1.1`, a change larger than `temp = 0.1`: the sum `1 + 0.1` of source line 107
is rounded upwards. -/
theorem displacement_bound_counterexample :
    accepted [(⟨0, 0, 0⟩ : Vec3 ℚ), ⟨1, 0, 0⟩] [] ∧
    Rounded.layout_with_fr_3d roundDouble sqrtDouble [(⟨0, 0, 0⟩ : Vec3 ℚ), ⟨1, 0, 0⟩] [] 1
      tenth 1 =
      .ok [⟨-tenth, 0, 0⟩, ⟨2476979795053773 / 2251799813685248, 0, 0⟩] ∧
    0 ≤ tenth ∧ tenth < |(2476979795053773 / 2251799813685248 : ℚ) - 1| := by
  refine ⟨by decide, rounded_two_vertices, ?_, ?_⟩
  · unfold tenth; norm_num
  · unfold tenth; norm_num [abs_of_pos]

/-- C2, amended: in exact arithmetic, with `temp_start ≥ 0` and `n_iter ≥ 1`, in every
iteration `i < n_iter` the value `temp` in force is not negative, and the move pass of that
iteration changes each of the three coordinates of each vertex by at most `temp` in
absolute value; with `dist_opt > 0` and face indices below the number of vertices the
iteration does complete. -/
theorem displacement_bound (sq : α → α) (hsq0 : ∀ x, 0 ≤ sq x)
    (hsq : ∀ x, 0 ≤ x → sq x * sq x = x) (vertex : List (Vec3 α)) (face : List Face)
    (dist_opt temp_start : α) (n_iter : Int) (hts : 0 ≤ temp_start) (hn : 1 ≤ n_iter)
    (i : Nat) (hi : (i : Int) < n_iter) :
    (∀ (ret : List (Vec3 α)) (temp : α),
      iterations sq vertex (extractEdges face) dist_opt temp_start n_iter i = .ok (ret, temp) →
      0 ≤ temp ∧
      ∀ (ret' : List (Vec3 α)) (temp' : α),
        iterations sq vertex (extractEdges face) dist_opt temp_start n_iter (i + 1)
          = .ok (ret', temp') →
        ret'.length = ret.length ∧
        ∀ (v : Nat) (p p' : Vec3 α), ret[v]? = some p → ret'[v]? = some p' →
          |p'.x - p.x| ≤ temp ∧ |p'.y - p.y| ≤ temp ∧ |p'.z - p.z| ≤ temp) ∧
    (0 < dist_opt → facesInRange vertex.length face →
      ∃ s s', iterations sq vertex (extractEdges face) dist_opt temp_start n_iter i = .ok s ∧
        iterations sq vertex (extractEdges face) dist_opt temp_start n_iter (i + 1) = .ok s') := by
  constructor
  · intro ret temp h1
    have htemp : temp = capAt temp_start n_iter i :=
      (iterations_inv sq vertex _ dist_opt temp_start n_iter i (ret, temp) h1).2
    have h0 : 0 ≤ temp := by
      rw [htemp]
      exact capAt_nonneg temp_start hts n_iter i (by omega)
    refine ⟨h0, ?_⟩
    intro ret' temp' h2
    obtain ⟨s, hs, hstep⟩ :=
      (iterations_succ_eq_ok sq vertex _ dist_opt temp_start n_iter i (ret', temp')).1 h2
    rw [h1] at hs
    cases hs
    obtain ⟨disp, -, r, hr, -, hr'⟩ :=
      (iteration_eq_ok sq vertex _ dist_opt temp_start n_iter i (ret, temp) (ret', temp')).1 hstep
    have hrr : ret' = r := by cases hr'; rfl
    subst hrr
    obtain ⟨hl, hge, hlt⟩ := movePass_spec sq temp vertex.length disp ret ret' hr
    refine ⟨hl, ?_⟩
    intro v p p' hp hp'
    by_cases hv : v < vertex.length
    · obtain ⟨q, d, hq, -, hq'⟩ := hlt v hv
      rw [hp] at hq
      rw [hp'] at hq'
      cases hq
      cases hq'
      obtain ⟨b1, b2, b3, -⟩ := moved_bound sq hsq0 hsq temp h0 p d
      exact ⟨b1, b2, b3⟩
    · have := hge v (by omega)
      rw [hp, hp'] at this
      cases this
      simp only [sub_self, abs_zero]
      exact ⟨h0, h0, h0⟩
  · intro hk hF
    have hE := edgesInRange_extractEdges _ face hF
    have hn0 : n_iter ≠ 0 := by omega
    obtain ⟨s, hs⟩ := iterations_ok sq hsq0 vertex _ dist_opt temp_start hk hE n_iter i
      (Or.inr hn0)
    obtain ⟨s', hs'⟩ := iterations_ok sq hsq0 vertex _ dist_opt temp_start hk hE n_iter (i + 1)
      (Or.inr hn0)
    exact ⟨s, s', hs, hs'⟩

theorem displacement_bound_witness :
    (∀ x : ℝ, 0 ≤ Real.sqrt x) ∧ (∀ x : ℝ, 0 ≤ x → Real.sqrt x * Real.sqrt x = x) ∧
    (0 : ℝ) ≤ 1 / 10 ∧ (1 : Int) ≤ 1 ∧ ((0 : Nat) : Int) < 1 ∧
    ∃ r : List (Vec3 ℝ),
      iterations Real.sqrt (tetraV : List (Vec3 ℝ)) (extractEdges tetraF) 1 (1 / 10) 1 1
        = .ok (r, 1 / 10) ∧
      r.length = (tetraV : List (Vec3 ℝ)).length ∧
      ∀ (v : Nat) (p p' : Vec3 ℝ), (tetraV : List (Vec3 ℝ))[v]? = some p → r[v]? = some p' →
        |p'.x - p.x| ≤ 1 / 10 ∧ |p'.y - p.y| ≤ 1 / 10 ∧ |p'.z - p.z| ≤ 1 / 10 := by
  refine ⟨Real.sqrt_nonneg, fun _ hx => Real.mul_self_sqrt hx, by norm_num, by decide,
    by decide, ?_⟩
  obtain ⟨r, hit, -⟩ := tetra_first_iteration Real.sqrt Real.sqrt_nonneg
    (fun _ hx => Real.mul_self_sqrt hx) (1 / 10) 1 (by decide)
  exact ⟨r, hit,
    ((displacement_bound Real.sqrt Real.sqrt_nonneg (fun _ hx => Real.mul_self_sqrt hx)
      tetraV tetraF 1 (1 / 10) 1 (by norm_num) (by decide) 0 (by decide)).1
        tetraV (1 / 10) rfl).2 r (1 / 10) hit⟩

/-- C7: on the regular tetrahedron with `dist_opt = 1`, `temp_start = 1 / 10` and
`n_iter = 1` the call returns four positions, each coordinate of which differs from the
input by at most `1 / 10`, and whose centroid is `(1 / 2, 1 / 2, 1 / 2)`, the centroid of
the input (exact arithmetic). -/
theorem tetrahedron_example (sq : α → α) (hsq0 : ∀ x, 0 ≤ sq x)
    (hsq : ∀ x, 0 ≤ x → sq x * sq x = x) :
    ∃ r : List (Vec3 α),
      layout_with_fr_3d sq (tetraV : List (Vec3 α)) tetraF 1 (1 / 10) 1 = .ok r ∧
      r.length = 4 ∧
      (∀ (v : Nat) (p p' : Vec3 α), (tetraV : List (Vec3 α))[v]? = some p → r[v]? = some p' →
        |p'.x - p.x| ≤ 1 / 10 ∧ |p'.y - p.y| ≤ 1 / 10 ∧ |p'.z - p.z| ≤ 1 / 10) ∧
      sumX r / 4 = 1 / 2 ∧ sumY r / 4 = 1 / 2 ∧ sumZ r / 4 = 1 / 2 ∧
      sumX (tetraV : List (Vec3 α)) / 4 = 1 / 2 ∧ sumY (tetraV : List (Vec3 α)) / 4 = 1 / 2 ∧
      sumZ (tetraV : List (Vec3 α)) / 4 = 1 / 2 := by
  obtain ⟨r, hit, hmove⟩ := tetra_first_iteration sq hsq0 hsq (1 / 10) 1 (by decide)
  obtain ⟨h2, h1⟩ := sqrt_two_facts sq hsq0 hsq
  have h10 : (0 : α) ≤ 1 / 10 := by norm_num
  obtain ⟨hl, hge, hlt⟩ := movePass_spec sq (1 / 10) 4 _ tetraV r hmove
  have ha : (0 : α) < 2 * sq 2 - 1 := by linarith
  have ht : sq ((2 * sq 2 - 1) ^ 2 + (2 * sq 2 - 1) ^ 2 + (2 * sq 2 - 1) ^ 2) ≠ 0 := by
    intro hc
    have hS : (0 : α) ≤ (2 * sq 2 - 1) ^ 2 + (2 * sq 2 - 1) ^ 2 + (2 * sq 2 - 1) ^ 2 := by
      positivity
    have := hsq _ hS
    rw [hc] at this
    nlinarith [sq_pos_of_pos ha]
  rw [tetra_move sq (1 / 10) (2 * sq 2 - 1) ht] at hmove
  have hr : r = _ := (Except.ok.inj hmove).symm
  refine ⟨r, (layout_eq_ok sq tetraV tetraF 1 (1 / 10) 1 tetra_accepted r).2 ⟨1 / 10, hit⟩,
    hl, ?_, ?_⟩
  · intro v p p' hp hp'
    by_cases hv : v < 4
    · obtain ⟨q, d, hq, -, hq'⟩ := hlt v hv
      rw [hp] at hq
      rw [hp'] at hq'
      cases hq
      cases hq'
      obtain ⟨b1, b2, b3, -⟩ := moved_bound sq hsq0 hsq (1 / 10) h10 p d
      exact ⟨b1, b2, b3⟩
    · have := hge v (by omega)
      rw [hp, hp'] at this
      cases this
      simp only [sub_self, abs_zero]
      exact ⟨h10, h10, h10⟩
  · rw [hr]
    simp only [sumX, sumY, sumZ, tetraV, List.map_cons, List.map_nil, List.sum_cons,
      List.sum_nil]
    refine ⟨?_, ?_, ?_, ?_, ?_, ?_⟩ <;> ring

theorem tetrahedron_example_witness :
    (∀ x : ℝ, 0 ≤ Real.sqrt x) ∧ (∀ x : ℝ, 0 ≤ x → Real.sqrt x * Real.sqrt x = x) ∧
    ∃ r : List (Vec3 ℝ),
      layout_with_fr_3d Real.sqrt (tetraV : List (Vec3 ℝ)) tetraF 1 (1 / 10) 1 = .ok r ∧
      r.length = 4 ∧
      (∀ (v : Nat) (p p' : Vec3 ℝ), (tetraV : List (Vec3 ℝ))[v]? = some p → r[v]? = some p' →
        |p'.x - p.x| ≤ 1 / 10 ∧ |p'.y - p.y| ≤ 1 / 10 ∧ |p'.z - p.z| ≤ 1 / 10) ∧
      sumX r / 4 = 1 / 2 ∧ sumY r / 4 = 1 / 2 ∧ sumZ r / 4 = 1 / 2 ∧
      sumX (tetraV : List (Vec3 ℝ)) / 4 = 1 / 2 ∧ sumY (tetraV : List (Vec3 ℝ)) / 4 = 1 / 2 ∧
      sumZ (tetraV : List (Vec3 ℝ)) / 4 = 1 / 2 :=
  ⟨Real.sqrt_nonneg, fun _ hx => Real.mul_self_sqrt hx,
    tetrahedron_example Real.sqrt Real.sqrt_nonneg (fun _ hx => Real.mul_self_sqrt hx)⟩

/-- C9: a completed step of the repulsion loop leaves `disp` as it was or adds one vector
`c` to the accumulator of one vertex of the pair and subtracts the same `c` from the
other, and so does a completed step of the attraction loop; hence the accumulators that
the two passes produce sum to zero on each axis. With `dist_opt > 0` and face indices
below the number of vertices the two passes do complete. -/
theorem force_symmetry (sq : α → α) (vertex : List (Vec3 α)) (face : List Face)
    (dist_opt : α) :
    (∀ (vi ui : Nat) (disp r : List (Vec3 α)),
      repulsePair sq vertex dist_opt vi ui disp = .ok r →
        r = disp ∨ ∃ c, (addAt disp vi c >>= fun d1 => subAt d1 ui c) = .ok r) ∧
    (∀ (e : Edge) (disp r : List (Vec3 α)),
      attractEdge sq vertex dist_opt e disp = .ok r →
        r = disp ∨ ∃ c, (subAt disp e.1 c >>= fun d1 => addAt d1 e.2 c) = .ok r) ∧
    (∀ disp : List (Vec3 α), displacement sq vertex (extractEdges face) dist_opt = .ok disp →
      disp.length = vertex.length ∧ sumX disp = 0 ∧ sumY disp = 0 ∧ sumZ disp = 0) ∧
    ((∀ x, 0 ≤ sq x) → 0 < dist_opt → facesInRange vertex.length face →
      ∃ disp, displacement sq vertex (extractEdges face) dist_opt = .ok disp) := by
  refine ⟨?_, ?_, fun disp h => displacement_inv sq vertex _ dist_opt disp h, ?_⟩
  · intro vi ui disp r h
    cases hv : vertex[vi]? with
    | none => rw [repulsePair_of_none sq vertex dist_opt vi ui disp (Or.inl hv)] at h; cases h
    | some pv =>
      cases hu : vertex[ui]? with
      | none => rw [repulsePair_of_none sq vertex dist_opt vi ui disp (Or.inr hu)] at h; cases h
      | some pu =>
        rw [repulsePair_eq sq vertex dist_opt vi ui disp pv pu hv hu] at h
        split_ifs at h with h1 h2
        · exact Or.inr ⟨_, h⟩
        · cases h
          exact Or.inl rfl
  · intro e disp r h
    cases hv : vertex[e.1]? with
    | none => rw [attractEdge_of_none sq vertex dist_opt e disp (Or.inl hv)] at h; cases h
    | some pv =>
      cases hu : vertex[e.2]? with
      | none => rw [attractEdge_of_none sq vertex dist_opt e disp (Or.inr hu)] at h; cases h
      | some pu =>
        rw [attractEdge_eq sq vertex dist_opt e disp pv pu hv hu] at h
        split_ifs at h with h1 h2
        · exact Or.inr ⟨_, h⟩
        · cases h
          exact Or.inl rfl
  · intro hsq0 hk hF
    exact displacement_ok sq hsq0 vertex _ dist_opt hk (edgesInRange_extractEdges _ face hF)

theorem force_symmetry_witness :
    ∃ disp : List (Vec3 ℝ),
      displacement Real.sqrt (tetraV : List (Vec3 ℝ)) (extractEdges tetraF) 1 = .ok disp ∧
      disp.length = (tetraV : List (Vec3 ℝ)).length ∧
      sumX disp = 0 ∧ sumY disp = 0 ∧ sumZ disp = 0 := by
  have h := force_symmetry Real.sqrt (tetraV : List (Vec3 ℝ)) tetraF 1
  obtain ⟨disp, hd⟩ := h.2.2.2 Real.sqrt_nonneg one_pos (by simp [facesInRange, tetraV, tetraF])
  exact ⟨disp, hd, h.2.2.1 disp hd⟩

/-- C10: on an input that passes the topology assertions, with `dist_opt > 0` and every
`n_iter`, the call never fails by a zero divisor nor by an assertion of `fr` or `fa`, and
it returns a layout when the face indices are below the number of vertices. A pair or an
edge whose two vertices have the same coordinates leaves `disp` unchanged, and a vertex
whose accumulated displacement has magnitude `d = 0` stays where it is, nothing being
divided by `d`. -/
theorem zero_distance_safety (sq : α → α) (hsq0 : ∀ x, 0 ≤ sq x)
    (hsq : ∀ x, 0 ≤ x → sq x * sq x = x) (vertex : List (Vec3 α)) (face : List Face)
    (dist_opt temp_start : α) (n_iter : Int) (hk : 0 < dist_opt)
    (hacc : accepted vertex face) :
    layout_with_fr_3d sq vertex face dist_opt temp_start n_iter ≠ .error .divByZero ∧
    layout_with_fr_3d sq vertex face dist_opt temp_start n_iter ≠ .error .assertFr ∧
    layout_with_fr_3d sq vertex face dist_opt temp_start n_iter ≠ .error .assertFa ∧
    (facesInRange vertex.length face →
      ∃ r, layout_with_fr_3d sq vertex face dist_opt temp_start n_iter = .ok r) ∧
    (∀ (vi ui : Nat) (p : Vec3 α) (disp : List (Vec3 α)),
      vertex[vi]? = some p → vertex[ui]? = some p →
        repulsePair sq vertex dist_opt vi ui disp = .ok disp) ∧
    (∀ (e : Edge) (p : Vec3 α) (disp : List (Vec3 α)),
      vertex[e.1]? = some p → vertex[e.2]? = some p →
        attractEdge sq vertex dist_opt e disp = .ok disp) ∧
    (∀ (temp : α) (p d : Vec3 α), sq (d.x ^ 2 + d.y ^ 2 + d.z ^ 2) = 0 →
      moveVertex sq temp p d = .ok p) ∧
    (∀ (temp : α) (p : Vec3 α), moveVertex sq temp p ⟨0, 0, 0⟩ = .ok p) := by
  have herr := layout_error sq hsq0 vertex face dist_opt temp_start n_iter hacc
  have hz : ∀ (temp : α) (p d : Vec3 α), sq (d.x ^ 2 + d.y ^ 2 + d.z ^ 2) = 0 →
      moveVertex sq temp p d = .ok p := by
    intro temp p d hd
    rw [moveVertex_eq]
    unfold moved
    rw [if_pos hd]
  refine ⟨?_, ?_, ?_, ?_, ?_, ?_, hz, ?_⟩
  · intro h
    rcases herr _ h with h1 | h1
    · cases h1
    · cases h1.1
  · intro h
    rcases herr _ h with h1 | h1
    · cases h1
    · cases h1.1
  · intro h
    rcases herr _ h with h1 | h1
    · cases h1
    · exact h1.2 hk
  · intro hF
    exact layout_ok sq hsq0 vertex face dist_opt temp_start n_iter hk hacc hF
  · intro vi ui p disp hv hu
    rw [repulsePair_eq sq vertex dist_opt vi ui disp p p hv hu, dist_self sq hsq p]
    simp
  · intro e p disp hv hu
    rw [attractEdge_eq sq vertex dist_opt e disp p p hv hu, dist_self sq hsq p]
    simp
  · intro temp p
    refine hz temp p ⟨0, 0, 0⟩ ?_
    have : (0 : α) ^ 2 + 0 ^ 2 + 0 ^ 2 = 0 := by norm_num
    simp only [this]
    exact sq_zero_of_axiom sq hsq

theorem zero_distance_safety_witness :
    (∀ x : ℝ, 0 ≤ Real.sqrt x) ∧ (∀ x : ℝ, 0 ≤ x → Real.sqrt x * Real.sqrt x = x) ∧
    (0 : ℝ) < 1 ∧ accepted (tetraV : List (Vec3 ℝ)) tetraF ∧
    ∃ r, layout_with_fr_3d Real.sqrt (tetraV : List (Vec3 ℝ)) tetraF 1 (1 / 10) 3 = .ok r :=
  ⟨Real.sqrt_nonneg, fun _ hx => Real.mul_self_sqrt hx, one_pos, tetra_accepted,
    (zero_distance_safety Real.sqrt Real.sqrt_nonneg (fun _ hx => Real.mul_self_sqrt hx)
      tetraV tetraF 1 (1 / 10) 3 one_pos tetra_accepted).2.2.2.1
        (by simp [facesInRange, tetraV, tetraF])⟩

/-- C12, the behaviour of the source: the value of `temp` with which iteration `i + 1`
starts is `temp_start - i * temp_start / n_iter`, the formula at `i` and not at `i + 1`; on
the tetrahedron with `temp_start = 1` and `n_iter = 2` iteration `1` is capped by `1`, not
by `1 - 1 * 1 / 2`. -/
theorem cooling_lag :
    (∀ (sq : ℝ → ℝ) (vertex : List (Vec3 ℝ)) (face : List Face) (dist_opt temp_start : ℝ)
      (n_iter : Int) (i : Nat) (s : List (Vec3 ℝ) × ℝ),
      iterations sq vertex (extractEdges face) dist_opt temp_start n_iter (i + 1) = .ok s →
        s.2 = temp_start - (i : ℝ) * temp_start / (n_iter : ℝ)) ∧
    (∃ r : List (Vec3 ℝ),
      iterations Real.sqrt (tetraV : List (Vec3 ℝ)) (extractEdges tetraF) 1 1 2 1
        = .ok (r, 1)) ∧
    (1 : ℝ) - ((1 : Nat) : ℝ) * 1 / ((2 : Int) : ℝ) ≠ 1 := by
  refine ⟨?_, ?_, by norm_num⟩
  · intro sq vertex face dist_opt temp_start n_iter i s hs
    exact (iterations_inv sq vertex _ dist_opt temp_start n_iter (i + 1) s hs).2
  · obtain ⟨r, hit, -⟩ := tetra_first_iteration Real.sqrt Real.sqrt_nonneg
      (fun _ hx => Real.mul_self_sqrt hx) 1 2 (by decide)
    exact ⟨r, hit⟩

/-- What one iteration does to the position of one vertex. -/
theorem iteration_vertex (sq : α → α) (vertex : List (Vec3 α)) (E : List Edge) (k ts : α)
    (n : Int) (i : Nat) (ret ret' : List (Vec3 α)) (temp temp' : α)
    (h1 : iterations sq vertex E k ts n i = .ok (ret, temp))
    (h2 : iterations sq vertex E k ts n (i + 1) = .ok (ret', temp')) :
    ∃ disp, displacement sq vertex E k = .ok disp ∧ ret'.length = ret.length ∧
      ret.length = vertex.length ∧ disp.length = vertex.length ∧
      ∀ (v : Nat) (p d : Vec3 α), ret[v]? = some p → disp[v]? = some d →
        ret'[v]? = some (moved sq temp p d) := by
  obtain ⟨s, hs, hstep⟩ := (iterations_succ_eq_ok sq vertex E k ts n i (ret', temp')).1 h2
  rw [h1] at hs
  cases hs
  obtain ⟨disp, hd, r, hr, -, hr'⟩ :=
    (iteration_eq_ok sq vertex E k ts n i (ret, temp) (ret', temp')).1 hstep
  have hrr : ret' = r := by cases hr'; rfl
  subst hrr
  obtain ⟨hl, hge, hlt⟩ := movePass_spec sq temp vertex.length disp ret ret' hr
  have hrl := (iterations_inv sq vertex E k ts n i (ret, temp) h1).1
  have hdl := (displacement_inv sq vertex E k disp hd).1
  refine ⟨disp, hd, hl, hrl, hdl, ?_⟩
  intro v p d hp hd'
  have hv : v < vertex.length := by
    by_contra hc
    rw [List.getElem?_eq_none (by omega)] at hd'
    cases hd'
  obtain ⟨q, d1, hq, hd1, hq'⟩ := hlt v hv
  rw [hp] at hq
  rw [hd'] at hd1
  cases hq
  cases hd1
  exact hq'

/-- C16, refuted as stated: in `double` arithmetic, on the vertices `(0,0,0)`, `(1,0,0)`
with no face, `dist_opt = 1`, `temp_start = 0.1` and `n_iter = 1`, the move applied to the
second vertex is `(x - 1, 0, 0)` with `x` the `double` nearest to `1.1`, and its squared
length exceeds `temp ^ 2`. -/
theorem move_length_counterexample :
    Rounded.layout_with_fr_3d roundDouble sqrtDouble [(⟨0, 0, 0⟩ : Vec3 ℚ), ⟨1, 0, 0⟩] [] 1
      tenth 1 =
      .ok [⟨-tenth, 0, 0⟩, ⟨2476979795053773 / 2251799813685248, 0, 0⟩] ∧
    0 ≤ tenth ∧
    tenth ^ 2 <
      ((2476979795053773 / 2251799813685248 : ℚ) - 1) ^ 2 + ((0 : ℚ) - 0) ^ 2 + ((0 : ℚ) - 0) ^ 2 := by
  refine ⟨rounded_two_vertices, ?_, ?_⟩
  · unfold tenth; norm_num
  · unfold tenth; norm_num

/-- C16, amended: in exact arithmetic, in an iteration whose `temp` is not negative, the
move applied to a vertex has Euclidean length at most `temp`: the squares of the three
coordinate changes sum to at most `temp ^ 2`, and the square root of that sum is at most
`temp`. With `dist_opt > 0` and face indices below the number of vertices the iterations
complete. -/
theorem move_length_bound (sq : α → α) (hsq0 : ∀ x, 0 ≤ sq x)
    (hsq : ∀ x, 0 ≤ x → sq x * sq x = x) (vertex : List (Vec3 α)) (face : List Face)
    (dist_opt temp_start : α) (n_iter : Int) :
    (∀ (i : Nat) (ret ret' : List (Vec3 α)) (temp temp' : α),
      iterations sq vertex (extractEdges face) dist_opt temp_start n_iter i = .ok (ret, temp) →
      iterations sq vertex (extractEdges face) dist_opt temp_start n_iter (i + 1)
        = .ok (ret', temp') →
      0 ≤ temp →
      ∀ (v : Nat) (p p' : Vec3 α), ret[v]? = some p → ret'[v]? = some p' →
        (p'.x - p.x) ^ 2 + (p'.y - p.y) ^ 2 + (p'.z - p.z) ^ 2 ≤ temp ^ 2 ∧
        sq ((p'.x - p.x) ^ 2 + (p'.y - p.y) ^ 2 + (p'.z - p.z) ^ 2) ≤ temp) ∧
    (0 < dist_opt → facesInRange vertex.length face → n_iter ≠ 0 →
      ∀ i : Nat, ∃ s, iterations sq vertex (extractEdges face) dist_opt temp_start n_iter i
        = .ok s) := by
  constructor
  · intro i ret ret' temp temp' h1 h2 ht v p p' hp hp'
    obtain ⟨disp, hd, hl, hrl, hdl, hv⟩ :=
      iteration_vertex sq vertex _ dist_opt temp_start n_iter i ret ret' temp temp' h1 h2
    have hvl : v < disp.length := by
      by_contra hc
      rw [List.getElem?_eq_none (by omega)] at hp
      cases hp
    have hm := hv v p (disp.get ⟨v, hvl⟩) hp (by simp [List.getElem?_eq_getElem hvl])
    rw [hp'] at hm
    cases hm
    obtain ⟨-, -, -, b4⟩ := moved_bound sq hsq0 hsq temp ht p (disp.get ⟨v, hvl⟩)
    refine ⟨b4, ?_⟩
    generalize (moved sq temp p (disp.get ⟨v, hvl⟩)).x - p.x = a at b4 ⊢
    generalize (moved sq temp p (disp.get ⟨v, hvl⟩)).y - p.y = b at b4 ⊢
    generalize (moved sq temp p (disp.get ⟨v, hvl⟩)).z - p.z = c at b4 ⊢
    have hS : 0 ≤ a ^ 2 + b ^ 2 + c ^ 2 := by positivity
    have hmm := hsq _ hS
    have h0 := hsq0 (a ^ 2 + b ^ 2 + c ^ 2)
    by_contra hc
    push_neg at hc
    have := mul_self_lt_mul_self ht hc
    nlinarith
  · intro hk hF hn i
    exact iterations_ok sq hsq0 vertex _ dist_opt temp_start hk
      (edgesInRange_extractEdges _ face hF) n_iter i (Or.inr hn)

theorem move_length_bound_witness :
    (∀ x : ℝ, 0 ≤ Real.sqrt x) ∧ (∀ x : ℝ, 0 ≤ x → Real.sqrt x * Real.sqrt x = x) ∧
    ∃ r : List (Vec3 ℝ),
      iterations Real.sqrt (tetraV : List (Vec3 ℝ)) (extractEdges tetraF) 1 (1 / 10) 1 1
        = .ok (r, 1 / 10) ∧
      ∀ (v : Nat) (p p' : Vec3 ℝ), (tetraV : List (Vec3 ℝ))[v]? = some p → r[v]? = some p' →
        (p'.x - p.x) ^ 2 + (p'.y - p.y) ^ 2 + (p'.z - p.z) ^ 2 ≤ (1 / 10) ^ 2 ∧
        Real.sqrt ((p'.x - p.x) ^ 2 + (p'.y - p.y) ^ 2 + (p'.z - p.z) ^ 2) ≤ 1 / 10 := by
  refine ⟨Real.sqrt_nonneg, fun _ hx => Real.mul_self_sqrt hx, ?_⟩
  obtain ⟨r, hit, -⟩ := tetra_first_iteration Real.sqrt Real.sqrt_nonneg
    (fun _ hx => Real.mul_self_sqrt hx) (1 / 10) 1 (by decide)
  exact ⟨r, hit,
    (move_length_bound Real.sqrt Real.sqrt_nonneg (fun _ hx => Real.mul_self_sqrt hx)
      tetraV tetraF 1 (1 / 10) 1).1 0 tetraV r (1 / 10) (1 / 10) rfl hit (by norm_num)⟩

/-- C13, the behaviour of the source: every iteration computes its distances from
`vertex`, the input, and not from `ret`. On two vertices at `(0,0,0)` and `(1,0,0)` with no
face, `dist_opt = 1`, `temp_start = 10`, `n_iter = 2`, the first iteration moves the
vertices to `(-1,0,0)` and `(2,0,0)`; the second moves them by `1` again, to `(-2,0,0)` and
`(3,0,0)`, with the accumulators `(-1,0,0)`, `(1,0,0)` of the input, whereas the
accumulators of the positions then current are `(-1/3,0,0)`, `(1/3,0,0)`. -/
theorem stale_positions :
    (∀ (sq : ℝ → ℝ) (vertex : List (Vec3 ℝ)) (E : List Edge) (dist_opt temp_start : ℝ)
      (n_iter : Int) (i : Nat) (s s' : List (Vec3 ℝ) × ℝ),
      iteration sq vertex E dist_opt temp_start n_iter i s = .ok s' →
      ∃ disp, displacement sq vertex E dist_opt = .ok disp ∧
        movePass sq s.2 vertex.length disp s.1 = .ok s'.1) ∧
    layout_with_fr_3d Real.sqrt [(⟨0, 0, 0⟩ : Vec3 ℝ), ⟨1, 0, 0⟩] [] 1 10 1 =
      .ok [⟨-1, 0, 0⟩, ⟨2, 0, 0⟩] ∧
    layout_with_fr_3d Real.sqrt [(⟨0, 0, 0⟩ : Vec3 ℝ), ⟨1, 0, 0⟩] [] 1 10 2 =
      .ok [⟨-2, 0, 0⟩, ⟨3, 0, 0⟩] ∧
    displacement Real.sqrt [(⟨0, 0, 0⟩ : Vec3 ℝ), ⟨1, 0, 0⟩] [] 1 =
      .ok [⟨-1, 0, 0⟩, ⟨1, 0, 0⟩] ∧
    displacement Real.sqrt [(⟨-1, 0, 0⟩ : Vec3 ℝ), ⟨2, 0, 0⟩] [] 1 =
      .ok [⟨-(1 / 3), 0, 0⟩, ⟨1 / 3, 0, 0⟩] := by
  have e2 : List.range 2 = [0, 1] := by decide
  have hdisp : displacement Real.sqrt [(⟨0, 0, 0⟩ : Vec3 ℝ), ⟨1, 0, 0⟩] [] 1 =
      .ok [⟨-1, 0, 0⟩, ⟨1, 0, 0⟩] := by
    simp only [displacement, repulsion, attraction, List.length_cons, List.length_nil, e2]
    norm_num [List.range', repulsePair, getV, ok_bind, pure_eq_ok, cdiv, fr, addAt, subAt,
      zero_x, zero_y, zero_z, List.replicate]
  have h9 : Real.sqrt 9 = 3 := by
    rw [show (9 : ℝ) = 3 * 3 by norm_num]
    exact Real.sqrt_mul_self (by norm_num)
  have hdisp' : displacement Real.sqrt [(⟨-1, 0, 0⟩ : Vec3 ℝ), ⟨2, 0, 0⟩] [] 1 =
      .ok [⟨-(1 / 3), 0, 0⟩, ⟨1 / 3, 0, 0⟩] := by
    simp only [displacement, repulsion, attraction, List.length_cons, List.length_nil, e2]
    norm_num [List.range', repulsePair, getV, ok_bind, pure_eq_ok, cdiv, fr, addAt, subAt,
      zero_x, zero_y, zero_z, List.replicate, h9]
  have hE : extractEdges [] = [] := rfl
  have hit1 : iterations Real.sqrt [(⟨0, 0, 0⟩ : Vec3 ℝ), ⟨1, 0, 0⟩] [] 1 10 1 1 =
      .ok ([⟨-1, 0, 0⟩, ⟨2, 0, 0⟩], 10) := by
    rw [iterations_succ_eq_ok]
    refine ⟨_, rfl, ?_⟩
    rw [iteration_eq_ok]
    refine ⟨_, hdisp, [⟨-1, 0, 0⟩, ⟨2, 0, 0⟩], ?_, by norm_num, by norm_num⟩
    simp only [movePass, List.length_cons, List.length_nil, e2]
    norm_num [getV, ok_bind, pure_eq_ok, moveVertex_eq, moved]
  have hit2a : iterations Real.sqrt [(⟨0, 0, 0⟩ : Vec3 ℝ), ⟨1, 0, 0⟩] [] 1 10 2 1 =
      .ok ([⟨-1, 0, 0⟩, ⟨2, 0, 0⟩], 10) := by
    rw [iterations_succ_eq_ok]
    refine ⟨_, rfl, ?_⟩
    rw [iteration_eq_ok]
    refine ⟨_, hdisp, [⟨-1, 0, 0⟩, ⟨2, 0, 0⟩], ?_, by norm_num, by norm_num⟩
    simp only [movePass, List.length_cons, List.length_nil, e2]
    norm_num [getV, ok_bind, pure_eq_ok, moveVertex_eq, moved]
  have hit2 : iterations Real.sqrt [(⟨0, 0, 0⟩ : Vec3 ℝ), ⟨1, 0, 0⟩] [] 1 10 2 2 =
      .ok ([⟨-2, 0, 0⟩, ⟨3, 0, 0⟩], 5) := by
    rw [iterations_succ_eq_ok]
    refine ⟨_, hit2a, ?_⟩
    rw [iteration_eq_ok]
    refine ⟨_, hdisp, [⟨-2, 0, 0⟩, ⟨3, 0, 0⟩], ?_, by norm_num, by norm_num⟩
    simp only [movePass, List.length_cons, List.length_nil, e2]
    norm_num [getV, ok_bind, pure_eq_ok, moveVertex_eq, moved]
  refine ⟨?_, ?_, ?_, hdisp, hdisp'⟩
  · intro sq vertex E dist_opt temp_start n_iter i s s' h
    obtain ⟨disp, hd, r, hr, -, rfl⟩ :=
      (iteration_eq_ok sq vertex E dist_opt temp_start n_iter i s s').1 h
    exact ⟨disp, hd, hr⟩
  · exact (layout_eq_ok Real.sqrt _ [] 1 10 1 (by decide) _).2 ⟨10, hit1⟩
  · exact (layout_eq_ok Real.sqrt _ [] 1 10 2 (by decide) _).2 ⟨5, hit2⟩

theorem dist_shift (sq : α → α) (c pv pu : Vec3 α) :
    dist sq (shift c pv) (shift c pu) = dist sq pv pu := by
  unfold dist shift
  simp only [add_sub_add_right_eq_sub]

theorem contribution_shift (sq : α → α) (c pv pu : Vec3 α) (F : α) :
    contribution sq (shift c pv) (shift c pu) F = contribution sq pv pu F := by
  unfold contribution
  rw [dist_shift]
  unfold shift
  simp only [add_sub_add_right_eq_sub]

theorem repulsePair_shift (sq : α → α) (c : Vec3 α) (vertex : List (Vec3 α)) (k : α)
    (vi ui : Nat) (disp : List (Vec3 α)) :
    repulsePair sq (vertex.map (shift c)) k vi ui disp = repulsePair sq vertex k vi ui disp := by
  cases hv : vertex[vi]? with
  | none =>
    rw [repulsePair_of_none sq vertex k vi ui disp (Or.inl hv),
      repulsePair_of_none sq _ k vi ui disp (Or.inl (by rw [List.getElem?_map, hv]; rfl))]
  | some pv =>
    cases hu : vertex[ui]? with
    | none =>
      rw [repulsePair_of_none sq vertex k vi ui disp (Or.inr hu),
        repulsePair_of_none sq _ k vi ui disp (Or.inr (by rw [List.getElem?_map, hu]; rfl))]
    | some pu =>
      rw [repulsePair_eq sq vertex k vi ui disp pv pu hv hu,
        repulsePair_eq sq _ k vi ui disp (shift c pv) (shift c pu)
          (by rw [List.getElem?_map, hv]; rfl) (by rw [List.getElem?_map, hu]; rfl),
        dist_shift, contribution_shift]

theorem attractEdge_shift (sq : α → α) (c : Vec3 α) (vertex : List (Vec3 α)) (k : α)
    (e : Edge) (disp : List (Vec3 α)) :
    attractEdge sq (vertex.map (shift c)) k e disp = attractEdge sq vertex k e disp := by
  cases hv : vertex[e.1]? with
  | none =>
    rw [attractEdge_of_none sq vertex k e disp (Or.inl hv),
      attractEdge_of_none sq _ k e disp (Or.inl (by rw [List.getElem?_map, hv]; rfl))]
  | some pv =>
    cases hu : vertex[e.2]? with
    | none =>
      rw [attractEdge_of_none sq vertex k e disp (Or.inr hu),
        attractEdge_of_none sq _ k e disp (Or.inr (by rw [List.getElem?_map, hu]; rfl))]
    | some pu =>
      rw [attractEdge_eq sq vertex k e disp pv pu hv hu,
        attractEdge_eq sq _ k e disp (shift c pv) (shift c pu)
          (by rw [List.getElem?_map, hv]; rfl) (by rw [List.getElem?_map, hu]; rfl),
        dist_shift, contribution_shift]

theorem displacement_shift (sq : α → α) (c : Vec3 α) (vertex : List (Vec3 α)) (E : List Edge)
    (k : α) :
    displacement sq (vertex.map (shift c)) E k = displacement sq vertex E k := by
  unfold displacement repulsion attraction
  simp only [List.length_map, repulsePair_shift, attractEdge_shift]

theorem moved_shift (sq : α → α) (temp : α) (c p d : Vec3 α) :
    moved sq temp (shift c p) d = shift c (moved sq temp p d) := by
  unfold moved
  split_ifs
  · rfl
  · unfold shift
    simp only [Vec3.mk.injEq]
    refine ⟨by ring, by ring, by ring⟩

theorem movePass_shift (sq : α → α) (temp : α) (c : Vec3 α) (n : Nat)
    (disp ret : List (Vec3 α)) :
    movePass sq temp n disp (ret.map (shift c)) =
      Except.map (List.map (shift c)) (movePass sq temp n disp ret) := by
  induction n with
  | zero => simp [movePass, pure_eq_ok, Except.map]
  | succ m ih =>
    rw [movePass_succ, movePass_succ, ih]
    cases hm : movePass sq temp m disp ret with
    | error e => simp [Except.map, error_bind]
    | ok r =>
      simp only [Except.map, ok_bind]
      cases hd : disp[m]? with
      | none => simp [getV_of_none disp m hd, error_bind]
      | some d =>
        cases hp : r[m]? with
        | none =>
          have hp' : (r.map (shift c))[m]? = none := by rw [List.getElem?_map, hp]; rfl
          simp [(getV_eq_ok disp m d).2 hd, getV_of_none _ m hp, getV_of_none _ m hp',
            ok_bind, error_bind]
        | some p =>
          have hp' : (r.map (shift c))[m]? = some (shift c p) := by
            rw [List.getElem?_map, hp]; rfl
          rw [moveStep_eq sq temp disp r m d p hd hp,
            moveStep_eq sq temp disp _ m d (shift c p) hd hp', moved_shift]
          simp [List.map_set]

theorem iterations_shift (sq : α → α) (c : Vec3 α) (vertex : List (Vec3 α)) (E : List Edge)
    (k ts : α) (n : Int) (j : Nat) :
    iterations sq (vertex.map (shift c)) E k ts n j =
      Except.map (fun s => (s.1.map (shift c), s.2)) (iterations sq vertex E k ts n j) := by
  induction j with
  | zero => simp [iterations, Except.map]
  | succ m ih =>
    rw [iterations, iterations, ih]
    cases hm : iterations sq vertex E k ts n m with
    | error e => simp [Except.map, error_bind]
    | ok s =>
      simp only [Except.map, ok_bind]
      unfold iteration
      rw [displacement_shift]
      cases hd : displacement sq vertex E k with
      | error e => simp [error_bind]
      | ok disp =>
        simp only [ok_bind, List.length_map]
        rw [movePass_shift]
        cases hr : movePass sq s.2 vertex.length disp s.1 with
        | error e => simp [Except.map, error_bind]
        | ok r =>
          simp only [Except.map, ok_bind]
          cases hq : cdiv ((m : α) * ts) (n : α) with
          | error e => simp [error_bind]
          | ok q => simp [ok_bind, pure_eq_ok]

/-- C19: translating every vertex by `c` translates the outcome by `c`: the call on the
translated vertices returns the translated layout when the call on the original vertices
returns a layout, and fails as it does otherwise; the accumulators are the same. -/
theorem translation_invariance (sq : α → α) (c : Vec3 α) (vertex : List (Vec3 α))
    (face : List Face) (dist_opt temp_start : α) (n_iter : Int) :
    layout_with_fr_3d sq (vertex.map (shift c)) face dist_opt temp_start n_iter =
      Except.map (List.map (shift c))
        (layout_with_fr_3d sq vertex face dist_opt temp_start n_iter) ∧
    displacement sq (vertex.map (shift c)) (extractEdges face) dist_opt =
      displacement sq vertex (extractEdges face) dist_opt := by
  refine ⟨?_, displacement_shift sq c vertex _ dist_opt⟩
  unfold layout_with_fr_3d
  simp only [List.length_map]
  cases hc : checkTopology vertex.length face (extractEdges face) with
  | error e => simp [Except.map, error_bind]
  | ok u =>
    simp only [ok_bind]
    rw [iterations_shift]
    cases hi : iterations sq vertex (extractEdges face) dist_opt temp_start n_iter n_iter.toNat with
    | error e => simp [Except.map, error_bind]
    | ok s => simp [Except.map, ok_bind, pure_eq_ok]

theorem eq_of_pairwise_edgeLt (l1 l2 : List Edge) (h1 : l1.Pairwise edgeLt)
    (h2 : l2.Pairwise edgeLt) (hmem : ∀ x, x ∈ l1 ↔ x ∈ l2) : l1 = l2 := by
  induction l1 generalizing l2 with
  | nil =>
    cases l2 with
    | nil => rfl
    | cons b bs => exact absurd ((hmem b).2 (List.mem_cons_self _ _)) (List.not_mem_nil b)
  | cons a as ih =>
    cases l2 with
    | nil => exact absurd ((hmem a).1 (List.mem_cons_self _ _)) (List.not_mem_nil a)
    | cons b bs =>
      rw [List.pairwise_cons] at h1 h2
      have hab : a = b := by
        rcases List.mem_cons.1 ((hmem a).1 (List.mem_cons_self _ _)) with h | h
        · exact h
        · rcases List.mem_cons.1 ((hmem b).2 (List.mem_cons_self _ _)) with h' | h'
          · exact h'.symm
          · exact absurd (edgeLt_trans (h1.1 b h') (h2.1 a h)) (edgeLt_irrefl a)
      subst hab
      congr 1
      refine ih bs h1.2 h2.2 ?_
      intro x
      constructor
      · intro hx
        rcases List.mem_cons.1 ((hmem x).1 (List.mem_cons_of_mem _ hx)) with h | h
        · subst h
          exact absurd (h1.1 x hx) (edgeLt_irrefl x)
        · exact h
      · intro hx
        rcases List.mem_cons.1 ((hmem x).2 (List.mem_cons_of_mem _ hx)) with h | h
        · subst h
          exact absurd (h2.1 x hx) (edgeLt_irrefl x)
        · exact h

theorem sameTriangle_edges (f g : Face) (h : sameTriangle f g) (x : Edge) :
    (x = (min g.1 g.2.1, max g.1 g.2.1) ∨ x = (min g.2.1 g.2.2, max g.2.1 g.2.2) ∨
      x = (min g.2.2 g.1, max g.2.2 g.1)) ↔
    (x = (min f.1 f.2.1, max f.1 f.2.1) ∨ x = (min f.2.1 f.2.2, max f.2.1 f.2.2) ∨
      x = (min f.2.2 f.1, max f.2.2 f.1)) := by
  obtain ⟨a, b, c⟩ := f
  unfold sameTriangle at h
  simp only at h
  rcases h with rfl | rfl | rfl | rfl | rfl | rfl <;> simp only
  · tauto
  · tauto
  · rw [min_comm c b, max_comm c b, min_comm b a, max_comm b a, min_comm a c, max_comm a c]
    tauto
  · rw [min_comm b a, max_comm b a, min_comm a c, max_comm a c, min_comm c b, max_comm c b]
    tauto
  · rw [min_comm a c, max_comm a c, min_comm c b, max_comm c b, min_comm b a, max_comm b a]
    tauto

theorem forall₂_exists_right (mid face' : List Face) (h : List.Forall₂ sameTriangle mid face') :
    (∀ f ∈ mid, ∃ g ∈ face', sameTriangle f g) ∧ (∀ g ∈ face', ∃ f ∈ mid, sameTriangle f g) := by
  induction h with
  | nil => simp
  | cons hfg _ ih =>
    constructor
    · intro f hf
      rcases List.mem_cons.1 hf with rfl | hf
      · exact ⟨_, List.mem_cons_self _ _, hfg⟩
      · obtain ⟨g, hg, hs⟩ := ih.1 f hf
        exact ⟨g, List.mem_cons_of_mem _ hg, hs⟩
    · intro g hg
      rcases List.mem_cons.1 hg with rfl | hg
      · exact ⟨_, List.mem_cons_self _ _, hfg⟩
      · obtain ⟨f, hf, hs⟩ := ih.2 g hg
        exact ⟨f, List.mem_cons_of_mem _ hf, hs⟩

theorem extractEdges_congr (face mid face' : List Face) (hperm : face.Perm mid)
    (hrot : List.Forall₂ sameTriangle mid face') :
    extractEdges face' = extractEdges face := by
  refine eq_of_pairwise_edgeLt _ _ (pairwise_extractEdges face') (pairwise_extractEdges face) ?_
  obtain ⟨h1, h2⟩ := forall₂_exists_right mid face' hrot
  intro x
  rw [mem_extractEdges, mem_extractEdges]
  constructor
  · rintro ⟨g, hg, hx⟩
    obtain ⟨f, hf, hs⟩ := h2 g hg
    exact ⟨f, hperm.mem_iff.2 hf, (sameTriangle_edges f g hs x).1 hx⟩
  · rintro ⟨f, hf, hx⟩
    obtain ⟨g, hg, hs⟩ := h1 f (hperm.mem_iff.1 hf)
    exact ⟨g, hg, (sameTriangle_edges f g hs x).2 hx⟩

/-- C14: a face list obtained from another by reordering the faces and then writing each
face rotated, reversed, or both, gives the same edge set, passes or fails the assertions
alike, and gives the same outcome of the call, whatever the other arguments are. -/
theorem face_representation (face mid face' : List Face) (hperm : face.Perm mid)
    (hrot : List.Forall₂ sameTriangle mid face') :
    extractEdges face' = extractEdges face ∧
    ∀ (sq : α → α) (vertex : List (Vec3 α)) (dist_opt temp_start : α) (n_iter : Int),
      layout_with_fr_3d sq vertex face' dist_opt temp_start n_iter =
        layout_with_fr_3d sq vertex face dist_opt temp_start n_iter := by
  have hE := extractEdges_congr face mid face' hperm hrot
  refine ⟨hE, ?_⟩
  intro sq vertex dist_opt temp_start n_iter
  have hlen : face'.length = face.length := by
    rw [← hrot.length_eq, hperm.length_eq]
  have hc : checkTopology vertex.length face' (extractEdges face) =
      checkTopology vertex.length face (extractEdges face) := by
    unfold checkTopology size
    rw [hlen]
  unfold layout_with_fr_3d
  simp only [hE, hc]

theorem face_representation_witness :
    tetraF.Perm [(0, 1, 3), (0, 1, 2), (0, 2, 3), (1, 2, 3)] ∧
    List.Forall₂ sameTriangle [(0, 1, 3), (0, 1, 2), (0, 2, 3), (1, 2, 3)]
      [(1, 3, 0), (2, 1, 0), (0, 2, 3), (3, 1, 2)] ∧
    extractEdges [(1, 3, 0), (2, 1, 0), (0, 2, 3), (3, 1, 2)] = extractEdges tetraF ∧
    ∀ (sq : ℝ → ℝ) (vertex : List (Vec3 ℝ)) (dist_opt temp_start : ℝ) (n_iter : Int),
      layout_with_fr_3d sq vertex [(1, 3, 0), (2, 1, 0), (0, 2, 3), (3, 1, 2)] dist_opt
          temp_start n_iter =
        layout_with_fr_3d sq vertex tetraF dist_opt temp_start n_iter :=
  ⟨List.Perm.swap _ _ _,
    List.Forall₂.cons (Or.inr (Or.inl rfl)) (List.Forall₂.cons (Or.inr (Or.inr (Or.inr (Or.inl rfl))))
      (List.Forall₂.cons (Or.inl rfl) (List.Forall₂.cons (Or.inr (Or.inr (Or.inl rfl)))
        List.Forall₂.nil))),
    face_representation tetraF [(0, 1, 3), (0, 1, 2), (0, 2, 3), (1, 2, 3)]
      [(1, 3, 0), (2, 1, 0), (0, 2, 3), (3, 1, 2)] (List.Perm.swap _ _ _)
      (List.Forall₂.cons (Or.inr (Or.inl rfl))
        (List.Forall₂.cons (Or.inr (Or.inr (Or.inr (Or.inl rfl))))
        (List.Forall₂.cons (Or.inl rfl) (List.Forall₂.cons (Or.inr (Or.inr (Or.inl rfl)))
          List.Forall₂.nil))))⟩

end Lemmas

end Fruchterman
